import Mathlib

/-!
A shallow embedding of the core of `src/streamlit_app.py` (the "Drug Blender"
dashboard): loading CSV/Excel uploads into tables, validating the key column
`ID`, renaming non-key columns, outer-merging on `ID`, sorting by `ID`, and
storing the result together with a per-file column map and color map in
session state.

Modelling conventions:
* A Python string is modelled as a Lean `String` (a list of characters).
* A cell value is numeric (`Cell.num`, modelled as an integer: the examples
  and claims only involve integer data; decimal literals are treated as
  text), text, or missing (`Cell.na`, pandas `NaN`).
* `pd.read_csv` is modelled line-based: split on newlines, skip blank lines,
  split fields on commas (quoting is not modelled), pad short rows, reject
  over-long rows, map NA sentinels to `Cell.na`, and convert a column to
  numbers when every non-missing field is an integer literal.
  `pd.read_excel` is kept abstract (a parameter of the pipeline).
* `DataFrame.to_csv(index=False)` is modelled as header line plus one line
  per row, fields comma-separated, each line newline-terminated, missing
  cells written as empty fields.
* `pd.merge(..., on="ID", how="outer")` is modelled as the standard full
  outer join with pandas' `_x`/`_y` suffixes on colliding non-key columns;
  `NaN` keys match each other, as they do in pandas `merge`.
* `DataFrame.sort_values(by="ID")` is modelled as: sort the rows with
  non-missing keys (a permutation of them ordered by the key), with rows
  whose key is missing placed last; it fails (Python `TypeError`) when the
  non-missing keys mix numeric and text values.
* Streamlit session state is a record of three optional stored values;
  errors abort the attempt and leave it unchanged.
-/

/-- A single cell of a table: an integer, a text value, or missing (NaN). -/
inductive Cell where
  | num : Int → Cell
  | text : String → Cell
  | na : Cell
  deriving DecidableEq, Repr

/-- A parsed table: a header of column names and a list of rows of cells.
Model of a pandas DataFrame (the index is not modelled). -/
structure RawTable where
  header : List String
  rows : List (List Cell)
  deriving DecidableEq, Repr

/-- A table is well-formed when every row has exactly one cell per column. -/
def RawTable.Wf (t : RawTable) : Prop :=
  ∀ r ∈ t.rows, r.length = t.header.length

instance (t : RawTable) : Decidable t.Wf := by
  unfold RawTable.Wf; infer_instance

/-- An uploaded file: its name and its raw content (byte stream as text). -/
structure RawFile where
  name : String
  content : String
  deriving DecidableEq, Repr

/-- Errors of the ingestion pipeline (Python exceptions / `st.error` stops). -/
inductive AppError where
  /-- Python ValueError raised by `load_file` for an unknown extension. -/
  | unsupported : String → AppError
  /-- pandas parse failure on the byte stream. -/
  | parseErr : AppError
  /-- pandas `EmptyDataError`: no content to parse. -/
  | emptyData : AppError
  /-- The streamlit error "File ... must have a column named 'ID'.". -/
  | missingKey : String → AppError
  /-- Python `IndexError` (palette exhausted). -/
  | indexErr : AppError
  /-- Python `TypeError` (comparing mixed-type keys while sorting). -/
  | typeErr : AppError
  deriving DecidableEq, Repr

instance {ε α : Type} [DecidableEq ε] [DecidableEq α] :
    DecidableEq (Except ε α) := fun a b =>
  match a, b with
  | .error e, .error f =>
    if h : e = f then isTrue (h ▸ rfl)
    else isFalse fun hh => h (Except.error.inj hh)
  | .error _, .ok _ => isFalse fun hh => Except.noConfusion hh
  | .ok _, .error _ => isFalse fun hh => Except.noConfusion hh
  | .ok x, .ok y =>
    if h : x = y then isTrue (h ▸ rfl)
    else isFalse fun hh => h (Except.ok.inj hh)

/-! ### Characters, digits and integer literals -/

/-- Lower-case a single ASCII character (model of `str.lower`). -/
def lowerChar (c : Char) : Char :=
  if 'A' ≤ c ∧ c ≤ 'Z' then Char.ofNat (c.toNat + 32) else c

/-- Lower-case a string, character by character. -/
def lowerStr (s : String) : String :=
  String.mk (s.data.map lowerChar)

/-- Is `c` a decimal digit? -/
def isDigitB (c : Char) : Bool :=
  decide ('0' ≤ c ∧ c ≤ '9')

/-- The character for digit `d` (0-9). -/
def digitChar (d : Nat) : Char :=
  Char.ofNat (48 + d)

/-- The digit denoted by character `c`. -/
def charDigit (c : Char) : Nat :=
  c.toNat - 48

/-- Decimal digits of `n`, most significant first; `fuel` bounds recursion. -/
def natChars : Nat → Nat → List Char
  | 0, _ => []
  | fuel + 1, n =>
    if n < 10 then [digitChar n]
    else natChars fuel (n / 10) ++ [digitChar (n % 10)]

/-- Parse a digit string (most significant first) as a natural number. -/
def parseNatChars (cs : List Char) : Nat :=
  cs.foldl (fun a c => 10 * a + charDigit c) 0

/-- Decimal rendering of an integer, as characters. -/
def intChars (n : Int) : List Char :=
  match n with
  | .ofNat m => natChars (m + 1) m
  | .negSucc m => '-' :: natChars (m + 2) (m + 1)

/-- Does the string denote an integer literal (optional minus, digits)? -/
def isIntStr (s : String) : Bool :=
  match s.data with
  | [] => false
  | c :: cs =>
    if c = '-' then !cs.isEmpty && cs.all isDigitB
    else (c :: cs).all isDigitB

/-- Parse an integer literal (assuming `isIntStr`; junk value otherwise). -/
def parseIntStr (s : String) : Int :=
  match s.data with
  | [] => 0
  | c :: cs =>
    if c = '-' then -(parseNatChars cs : Int)
    else (parseNatChars (c :: cs) : Int)

/-! ### Splitting and joining on a separator character -/

/-- Split a character list on every occurrence of `sep`
(model of Python `str.split` for a one-character separator). -/
def splitSep (sep : Char) : List Char → List (List Char)
  | [] => [[]]
  | c :: cs =>
    match splitSep sep cs with
    | [] => if c = sep then [[], []] else [[c]]
    | f :: rest => if c = sep then [] :: f :: rest else (c :: f) :: rest

/-- Join character lists with a separator (inverse of `splitSep`). -/
def joinSep (sep : Char) : List (List Char) → List Char
  | [] => []
  | [f] => f
  | f :: fs => f ++ sep :: joinSep sep fs

/-! ### The NA sentinels and the CSV reader / writer -/

/-- Field values that pandas `read_csv` interprets as missing
(the model keeps the common subset of pandas' default `na_values`). -/
def naStrings : List String :=
  ["", "nan", "NaN", "NA", "N/A", "null", "NULL"]

/-- Is every non-missing field of column `j` an integer literal?
(pandas dtype inference, restricted to integers). -/
def colNumeric (rowsS : List (List String)) (j : Nat) : Bool :=
  rowsS.all fun r =>
    let f := r.getD j ""
    naStrings.contains f || isIntStr f

/-- Convert the fields of one row into cells, `j` being the index of the
first field; numeric columns (per `colNum`) become numbers. -/
def mkCells (colNum : Nat → Bool) : Nat → List String → List Cell
  | _, [] => []
  | j, f :: fs =>
    (if naStrings.contains f then Cell.na
     else if colNum j then Cell.num (parseIntStr f)
     else Cell.text f) :: mkCells colNum (j + 1) fs

/-- Model of `pd.read_csv` on a text stream: split lines (skipping blank
ones), take the first as the header, split fields on commas, pad short
rows with empty fields, fail on over-long rows, then type each column. -/
def csvRead (s : String) : Except AppError RawTable :=
  let lines := (splitSep '\n' s.data).filter (fun l => !l.isEmpty)
  match lines with
  | [] => .error .emptyData
  | h :: rs =>
    let header := (splitSep ',' h).map String.mk
    let rawRows := rs.map fun l => (splitSep ',' l).map String.mk
    if rawRows.any fun r => header.length < r.length then .error .parseErr
    else
      let padded := rawRows.map fun r =>
        r ++ List.replicate (header.length - r.length) ""
      .ok ⟨header, padded.map (mkCells (colNumeric padded) 0)⟩

/-- Render one cell as a CSV field. -/
def writeCell : Cell → List Char
  | .num n => intChars n
  | .text s => s.data
  | .na => []

/-- Model of `DataFrame.to_csv(index=False)`: a header line then one line
per row, comma-separated, every line terminated by a newline. -/
def csvWrite (t : RawTable) : String :=
  let headerLine := joinSep ',' (t.header.map String.data)
  let rowLines := t.rows.map fun r => joinSep ',' (r.map writeCell)
  String.mk ((headerLine :: rowLines).flatMap fun l => l ++ ['\n'])

/-! ### File-name extension (`os.path.splitext`) -/

/-- Split a character list at its last dot: `some (pre, suf)` with the
list equal to `pre ++ dot ++ suf` and no dot in `suf`. -/
def lastDotSplit : List Char → Option (List Char × List Char)
  | [] => none
  | c :: rest =>
    match lastDotSplit rest with
    | some (a, b) => some (c :: a, b)
    | none => if c = '.' then some ([], rest) else none

/-- The extension of a file name per `os.path.splitext` (for names without
directory separators): everything from the last dot on, provided some
character before that dot is not itself a dot; otherwise empty. -/
def splitextExt (s : String) : String :=
  match lastDotSplit s.data with
  | some (pre, suf) =>
    if pre.all (fun c => c = '.') then "" else String.mk ('.' :: suf)
  | none => ""

/-! ### The loader (`load_file`) and key check -/

/-- The abstract Excel parser (`pd.read_excel` is outside the model). -/
def ReadExcel : Type := String → Except AppError RawTable

/-- Keep the elements whose index satisfies `keep`, indices from `j`. -/
def selectIdxs {α : Type} (keep : Nat → Bool) : Nat → List α → List α
  | _, [] => []
  | j, a :: as =>
    if keep j then a :: selectIdxs keep (j + 1) as
    else selectIdxs keep (j + 1) as

/-- Is some cell of column `j` present (non-missing)? -/
def colPresent (rows : List (List Cell)) (j : Nat) : Bool :=
  rows.any fun r => r.getD j Cell.na ≠ Cell.na

/-- Model of `df.loc[:, df.notna().any()]`: drop every column with zero
non-missing values. -/
def dropEmptyCols (t : RawTable) : RawTable :=
  ⟨selectIdxs (colPresent t.rows) 0 t.header,
   t.rows.map (selectIdxs (colPresent t.rows) 0)⟩

/-- Model of `load_file`: dispatch on the lower-cased name's extension,
parse in the declared format, then drop entirely-empty columns. -/
def load_file (re : ReadExcel) (f : RawFile) : Except AppError RawTable :=
  let ext := splitextExt (lowerStr f.name)
  if ext = ".csv" then (csvRead f.content).map dropEmptyCols
  else if ext = ".xlsx" ∨ ext = ".xls" then (re f.content).map dropEmptyCols
  else .error (.unsupported ext)

/-- Model of `check_expected_key`: does the table have an `ID` column? -/
def check_expected_key (t : RawTable) : Bool :=
  t.header.contains "ID"

/-- Model of `rename_non_key_columns`: every column other than `ID` gets
the file name as a double-underscore suffix. -/
def rename_non_key_columns (t : RawTable) (fileName : String) : RawTable :=
  ⟨t.header.map fun c => if c = "ID" then c else c ++ "__" ++ fileName,
   t.rows⟩

/-- Model of `get_file_columns`: the column names other than `ID`. -/
def get_file_columns (t : RawTable) : List String :=
  t.header.filter fun c => c ≠ "ID"

/-! ### Keyed tables and the outer merge on `ID` -/

/-- A row of a keyed table: its `ID` value and its non-key cells. -/
structure KRow where
  key : Cell
  vals : List Cell
  deriving DecidableEq, Repr

/-- A table keyed on `ID`: its non-key column names and its rows. -/
structure KTable where
  cols : List String
  rows : List KRow
  deriving DecidableEq, Repr

/-- Well-formedness of a keyed table: one non-key cell per non-key column. -/
def KTable.Wf (t : KTable) : Prop :=
  ∀ r ∈ t.rows, r.vals.length = t.cols.length

instance (t : KTable) : Decidable t.Wf := by
  unfold KTable.Wf; infer_instance

/-- View a table (known to contain `ID`) as keyed on its `ID` column. -/
def toKeyed (t : RawTable) : KTable :=
  let i := t.header.indexOf "ID"
  ⟨t.header.eraseIdx i, t.rows.map fun r => ⟨r.getD i Cell.na, r.eraseIdx i⟩⟩

/-- The list of key values of a keyed table, in row order. -/
def keyList (t : KTable) : List Cell :=
  t.rows.map fun r => r.key

/-- Model of `pd.merge(left, right, on="ID", how="outer")`: rows matched on
equal keys (missing keys match each other, as in pandas), unmatched left
rows padded with missing cells on the right and vice versa; non-key column
names colliding between the two sides get pandas' `_x`/`_y` suffixes. -/
def mergeTables (l r : KTable) : KTable :=
  let lcols := l.cols.map fun c => if r.cols.contains c then c ++ "_x" else c
  let rcols := r.cols.map fun c => if l.cols.contains c then c ++ "_y" else c
  let leftPart := l.rows.flatMap fun lr =>
    match r.rows.filter (fun rr => decide (rr.key = lr.key)) with
    | [] => [⟨lr.key, lr.vals ++ List.replicate r.cols.length Cell.na⟩]
    | ms => ms.map fun rr => ⟨lr.key, lr.vals ++ rr.vals⟩
  let rightOnly :=
    (r.rows.filter fun rr => l.rows.all fun lr => decide (lr.key ≠ rr.key)).map
      fun rr => ⟨rr.key, List.replicate l.cols.length Cell.na ++ rr.vals⟩
  ⟨lcols ++ rcols, leftPart ++ rightOnly⟩

/-- The functools.reduce of the merge over the loaded tables, left to right. -/
def combineKeyed (k : KTable) (rest : List KTable) : KTable :=
  rest.foldl mergeTables k

/-! ### Sorting the merged table by `ID` -/

/-- Is the cell numeric? -/
def isNumCell : Cell → Bool
  | .num _ => true
  | _ => false

/-- Is the cell text? -/
def isTextCell : Cell → Bool
  | .text _ => true
  | _ => false

/-- Lexicographic (code-point) order on character lists, as Python
compares strings. -/
def leChars : List Char → List Char → Bool
  | [], _ => true
  | _ :: _, [] => false
  | a :: as, b :: bs => if a = b then leChars as bs else decide (a < b)

/-- Order on cells of one kind (numeric by value, text lexicographic);
mixed comparisons never occur on the sorted rows. -/
def cellLeB : Cell → Cell → Bool
  | .num a, .num b => decide (a ≤ b)
  | .text a, .text b => leChars a.data b.data
  | _, _ => true

/-- Row order: by key cell. -/
def rowLe (a b : KRow) : Prop :=
  cellLeB a.key b.key = true

instance : DecidableRel rowLe := fun a b => by
  unfold rowLe; infer_instance

/-- Model of `master_df.sort_values(by="ID").reset_index(drop=True)`:
rows with non-missing keys ordered by key, rows with missing keys last
(pandas `na_position="last"`); fails — Python raises `TypeError` — when
the non-missing keys mix numbers and text. -/
def sortKeyed (t : KTable) : Option KTable :=
  let nonNa := t.rows.filter fun r => decide (r.key ≠ Cell.na)
  let nas := t.rows.filter fun r => decide (r.key = Cell.na)
  if (nonNa.all fun r => isNumCell r.key) || (nonNa.all fun r => isTextCell r.key)
  then some ⟨t.cols, List.insertionSort rowLe nonNa ++ nas⟩
  else none

/-! ### The ingestion pipeline (`data_ingestion_page`) -/

/-- The fixed five-color palette of `data_ingestion_page`. -/
def colorPalette : List String :=
  ["#FFCFCF", "#CFFFCF", "#CFCFFF", "#FFFACF", "#FFCFFF"]

/-- The `file_columns` session value: file name to its column names. -/
abbrev FileCols := List (String × List String)

/-- The `color_map` session value: file name to its display color. -/
abbrev ColorMap := List (String × String)

/-- Python-dict insertion: replace the value in place if the key exists,
otherwise append the binding. -/
def upsert {α : Type} (m : List (String × α)) (k : String) (v : α) :
    List (String × α) :=
  if m.any fun p => decide (p.1 = k) then
    m.map fun p => if p.1 = k then (k, v) else p
  else m ++ [(k, v)]

/-- Accumulator of the per-file loop: loaded frames, `file_columns`,
`color_map`. -/
structure LoadAcc where
  dfs : List RawTable
  fileColumns : FileCols
  colorMap : ColorMap
  deriving DecidableEq, Repr

/-- The per-file loop of `data_ingestion_page`: load, check the key,
rename non-key columns, record columns and palette color (by index). -/
def loadLoop (re : ReadExcel) :
    List RawFile → Nat → LoadAcc → Except AppError LoadAcc
  | [], _, acc => .ok acc
  | f :: fs, i, acc =>
    match load_file re f with
    | .error e => .error e
    | .ok df =>
      if check_expected_key df then
        let df2 := rename_non_key_columns df f.name
        match colorPalette.get? i with
        | none => .error .indexErr
        | some col =>
          loadLoop re fs (i + 1)
            ⟨acc.dfs ++ [df2],
             upsert acc.fileColumns f.name (get_file_columns df2),
             upsert acc.colorMap f.name col⟩
      else .error (.missingKey f.name)

/-- The whole processing attempt behind the "Process Files" button: run the
per-file loop, merge the frames left to right on `ID`, sort by `ID`. -/
def process (re : ReadExcel) (files : List RawFile) :
    Except AppError (KTable × FileCols × ColorMap) :=
  match loadLoop re files 0 ⟨[], [], []⟩ with
  | .error e => .error e
  | .ok acc =>
    match acc.dfs with
    | [] => .error .typeErr
    | d :: ds =>
      match sortKeyed (combineKeyed (toKeyed d) (ds.map toKeyed)) with
      | none => .error .typeErr
      | some m => .ok (m, acc.fileColumns, acc.colorMap)

/-- The stored session state (`st.session_state`). -/
structure Session where
  master_df : Option KTable
  file_columns : Option FileCols
  color_map : Option ColorMap
  deriving DecidableEq, Repr

/-- What the ingestion page reports for one attempt. -/
inductive Outcome where
  | info
  | warnTooMany
  | success
  | failure : AppError → Outcome
  deriving DecidableEq, Repr

/-- The ingestion page with the button pressed: empty upload shows the
info prompt; more than five files only warns; otherwise the attempt runs
and the three session values are stored exactly on success. -/
def data_ingestion (re : ReadExcel) (files : List RawFile) (s : Session) :
    Session × Outcome :=
  if files.isEmpty then (s, .info)
  else if 5 < files.length then (s, .warnTooMany)
  else
    match process re files with
    | .ok (m, fc, cm) => (⟨some m, some fc, some cm⟩, .success)
    | .error e => (s, .failure e)

/-- The merged table as a plain table again (for export: `ID` first). -/
def fromKeyed (m : KTable) : RawTable :=
  ⟨"ID" :: m.cols, m.rows.map fun r => r.key :: r.vals⟩

/-- The Master Document download: `master_df.to_csv(index=False)`. -/
def exportCsv (m : KTable) : String :=
  csvWrite (fromKeyed m)

/-- A placeholder Excel parser for concrete evaluations (uploads in the
concrete scenarios are all CSV). -/
def noExcel : ReadExcel := fun _ => .error .parseErr

/-! ### Small facts about the pipeline wrapper -/

theorem data_ingestion_of_error (re : ReadExcel) (files : List RawFile)
    (s : Session) (e : AppError) (hne : files ≠ []) (hc : files.length ≤ 5)
    (hp : process re files = .error e) :
    data_ingestion re files s = (s, .failure e) := by
  have h1 : files.isEmpty = false := by
    cases files with
    | nil => exact absurd rfl hne
    | cons a t => rfl
  have h2 : ¬ 5 < files.length := not_lt.mpr hc
  simp [data_ingestion, h1, h2, hp]

/-- C5: uploading more than 5 files only produces the too-many-sources
warning: no combination is attempted and the stored session state (the
previous combined table and provenance maps) is left untouched. -/
theorem c5_too_many_sources (re : ReadExcel) (files : List RawFile)
    (s : Session) (h : 5 < files.length) :
    data_ingestion re files s = (s, .warnTooMany) := by
  have h1 : files.isEmpty = false := by
    cases files with
    | nil => simp at h
    | cons a t => rfl
  simp [data_ingestion, h1, h]

theorem c5_too_many_sources_witness :
    5 < ([⟨"a.csv", ""⟩, ⟨"b.csv", ""⟩, ⟨"c.csv", ""⟩, ⟨"d.csv", ""⟩,
          ⟨"e.csv", ""⟩, ⟨"f.csv", ""⟩] : List RawFile).length ∧
    data_ingestion noExcel
        [⟨"a.csv", ""⟩, ⟨"b.csv", ""⟩, ⟨"c.csv", ""⟩, ⟨"d.csv", ""⟩,
         ⟨"e.csv", ""⟩, ⟨"f.csv", ""⟩] ⟨none, none, none⟩
      = (⟨none, none, none⟩, .warnTooMany) :=
  ⟨by decide,
   c5_too_many_sources noExcel
     [⟨"a.csv", ""⟩, ⟨"b.csv", ""⟩, ⟨"c.csv", ""⟩, ⟨"d.csv", ""⟩,
      ⟨"e.csv", ""⟩, ⟨"f.csv", ""⟩] ⟨none, none, none⟩ (by decide)⟩

/-- C9: every failing combination attempt is atomic: whatever error the
processing returns, the ingestion page reports it as the outcome and the
stored session state (combined table, column-attribution map, color map
from any previous successful combination) is unchanged. -/
theorem c9_error_atomicity (re : ReadExcel) (files : List RawFile)
    (s : Session) (e : AppError) (hne : files ≠ []) (hc : files.length ≤ 5)
    (hp : process re files = .error e) :
    data_ingestion re files s = (s, .failure e) :=
  data_ingestion_of_error re files s e hne hc hp

theorem c9_error_atomicity_witness :
    ([⟨"a.txt", "x"⟩] : List RawFile) ≠ [] ∧
    ([⟨"a.txt", "x"⟩] : List RawFile).length ≤ 5 ∧
    process noExcel [⟨"a.txt", "x"⟩] = .error (.unsupported ".txt") ∧
    data_ingestion noExcel [⟨"a.txt", "x"⟩]
        ⟨some ⟨["c"], []⟩, some [("f.csv", ["c"])], some [("f.csv", "#FFCFCF")]⟩
      = (⟨some ⟨["c"], []⟩, some [("f.csv", ["c"])], some [("f.csv", "#FFCFCF")]⟩,
         .failure (.unsupported ".txt")) :=
  ⟨by decide, by decide, by decide,
   c9_error_atomicity noExcel [⟨"a.txt", "x"⟩]
     ⟨some ⟨["c"], []⟩, some [("f.csv", ["c"])], some [("f.csv", "#FFCFCF")]⟩
     (.unsupported ".txt") (by decide) (by decide) (by decide)⟩

/-- C6: the loader dispatches on the file name's extension (of the
lower-cased name, per `os.path.splitext`): an extension other than
csv/xlsx/xls fails with the unsupported-format error, `.csv` parses the
bytes as CSV, and `.xlsx`/`.xls` parse them as a spreadsheet — in each
supported case returning the parsed table with empty columns dropped. -/
theorem c6_loader_format_dispatch (re : ReadExcel) (f : RawFile) :
    (splitextExt (lowerStr f.name) ∉ [".csv", ".xlsx", ".xls"] →
      load_file re f = .error (.unsupported (splitextExt (lowerStr f.name)))) ∧
    (splitextExt (lowerStr f.name) = ".csv" →
      load_file re f = (csvRead f.content).map dropEmptyCols) ∧
    (splitextExt (lowerStr f.name) ∈ [".xlsx", ".xls"] →
      load_file re f = (re f.content).map dropEmptyCols) := by
  refine ⟨fun h => ?_, fun h => ?_, fun h => ?_⟩
  · simp only [List.mem_cons, List.not_mem_nil, or_false, not_or] at h
    obtain ⟨h1, h2, h3⟩ := h
    simp [load_file, h1, h2, h3]
  · simp [load_file, h]
  · simp only [List.mem_cons, List.not_mem_nil, or_false] at h
    have hx : (".xlsx" : String) ≠ ".csv" := by decide
    have hy : (".xls" : String) ≠ ".csv" := by decide
    rcases h with h | h <;> simp [load_file, h, hx, hy]

theorem c6_loader_format_dispatch_witness :
    splitextExt (lowerStr "a.TXT") ∉ [".csv", ".xlsx", ".xls"] ∧
    load_file noExcel ⟨"a.TXT", "x"⟩
      = .error (.unsupported (splitextExt (lowerStr "a.TXT"))) :=
  ⟨by decide, (c6_loader_format_dispatch noExcel ⟨"a.TXT", "x"⟩).1 (by decide)⟩

/-! ### C4: a source without the key column aborts the attempt -/

theorem colorPalette_get?_of_lt (i : Nat) (hi : i < 5) :
    ∃ col, colorPalette.get? i = some col := by
  interval_cases i <;> exact ⟨_, rfl⟩

theorem loadLoop_missingKey (re : ReadExcel) (bad : RawFile)
    (post : List RawFile) (t : RawTable)
    (hload : load_file re bad = .ok t)
    (hcheck : check_expected_key t = false) :
    ∀ (pre : List RawFile) (i : Nat) (acc : LoadAcc),
      (∀ g ∈ pre, ∃ u, load_file re g = .ok u ∧ check_expected_key u = true) →
      i + pre.length ≤ 5 →
      loadLoop re (pre ++ bad :: post) i acc
        = .error (.missingKey bad.name) := by
  intro pre
  induction pre with
  | nil =>
    intro i acc _ _
    simp [loadLoop, hload, hcheck]
  | cons g pre ih =>
    intro i acc hpre hbound
    obtain ⟨u, hg, hcu⟩ := hpre g (List.mem_cons_self g pre)
    have hi : i < 5 := by simp at hbound; omega
    obtain ⟨col, hcol⟩ := colorPalette_get?_of_lt i hi
    simp only [List.cons_append, loadLoop, hg, hcu, hcol, if_true]
    exact ih (i + 1) _ (fun g hgm => hpre g (List.mem_cons_of_mem _ hgm))
      (by simp at hbound ⊢; omega)

/-- C4: if some uploaded source, once loaded, lacks the key column `ID`
(all sources before it loading fine with the key present), the attempt
fails with the missing-key error naming that source, and no combined
output is produced or stored: the session state is unchanged. -/
theorem c4_missing_key_aborts (re : ReadExcel) (files pre post : List RawFile)
    (bad : RawFile) (t : RawTable) (s : Session)
    (hsplit : files = pre ++ bad :: post)
    (hload : load_file re bad = .ok t)
    (hcheck : check_expected_key t = false)
    (hpre : ∀ g ∈ pre, ∃ u, load_file re g = .ok u ∧ check_expected_key u = true)
    (hlen : files.length ≤ 5) :
    process re files = .error (.missingKey bad.name) ∧
    data_ingestion re files s = (s, .failure (.missingKey bad.name)) := by
  subst hsplit
  have hloop := loadLoop_missingKey re bad post t hload hcheck pre 0
    ⟨[], [], []⟩ hpre (by simp at hlen ⊢; omega)
  have hproc : process re (pre ++ bad :: post)
      = .error (.missingKey bad.name) := by
    simp [process, hloop]
  refine ⟨hproc, data_ingestion_of_error _ _ _ _ ?_ hlen hproc⟩
  simp

theorem c4_missing_key_aborts_witness :
    ([⟨"good.csv", "ID,A\n1,2\n"⟩, ⟨"bad.csv", "B,C\n1,2\n"⟩] : List RawFile)
        = [⟨"good.csv", "ID,A\n1,2\n"⟩] ++ ⟨"bad.csv", "B,C\n1,2\n"⟩ :: [] ∧
    load_file noExcel ⟨"bad.csv", "B,C\n1,2\n"⟩
        = .ok ⟨["B", "C"], [[Cell.num 1, Cell.num 2]]⟩ ∧
    check_expected_key ⟨["B", "C"], [[Cell.num 1, Cell.num 2]]⟩ = false ∧
    process noExcel [⟨"good.csv", "ID,A\n1,2\n"⟩, ⟨"bad.csv", "B,C\n1,2\n"⟩]
        = .error (.missingKey "bad.csv") ∧
    data_ingestion noExcel
        [⟨"good.csv", "ID,A\n1,2\n"⟩, ⟨"bad.csv", "B,C\n1,2\n"⟩]
        ⟨none, none, none⟩
      = (⟨none, none, none⟩, .failure (.missingKey "bad.csv")) := by
  have h := c4_missing_key_aborts noExcel
    [⟨"good.csv", "ID,A\n1,2\n"⟩, ⟨"bad.csv", "B,C\n1,2\n"⟩]
    [⟨"good.csv", "ID,A\n1,2\n"⟩] [] ⟨"bad.csv", "B,C\n1,2\n"⟩
    ⟨["B", "C"], [[Cell.num 1, Cell.num 2]]⟩ ⟨none, none, none⟩
    (by decide) (by decide) (by decide)
    (by
      intro g hg
      simp only [List.mem_singleton] at hg
      subst hg
      exact ⟨⟨["ID", "A"], [[Cell.num 1, Cell.num 2]]⟩, by decide, by decide⟩)
    (by decide)
  exact ⟨by decide, by decide, by decide, h.1, h.2⟩

/-! ### C10: an all-missing `ID` column is dropped, then rejected -/

theorem selectIdxs_mem {α : Type} (keep : Nat → Bool) :
    ∀ (l : List α) (j : Nat) (a : α), a ∈ selectIdxs keep j l →
      ∃ i : Fin l.length, l.get i = a ∧ keep (j + i.val) = true := by
  intro l
  induction l with
  | nil => intro j a h; simp [selectIdxs] at h
  | cons b bs ih =>
    intro j a h
    by_cases hk : keep j = true
    · rw [selectIdxs, if_pos hk] at h
      rcases List.mem_cons.mp h with h | h
      · exact ⟨⟨0, by simp⟩, by simp [h.symm], by simpa using hk⟩
      · obtain ⟨i, hget, hkeep⟩ := ih (j + 1) a h
        refine ⟨⟨i.val + 1, by simp [Nat.succ_lt_succ i.isLt]⟩, by simpa using hget, ?_⟩
        have : j + (i.val + 1) = j + 1 + i.val := by omega
        rw [this]; exact hkeep
    · rw [selectIdxs, if_neg hk] at h
      obtain ⟨i, hget, hkeep⟩ := ih (j + 1) a h
      refine ⟨⟨i.val + 1, by simp [Nat.succ_lt_succ i.isLt]⟩, by simpa using hget, ?_⟩
      have : j + (i.val + 1) = j + 1 + i.val := by omega
      rw [this]; exact hkeep

/-- C10: a CSV source that declares an `ID` column whose every cell is
missing is rejected with the missing-key error: the loader drops columns
with zero non-missing values before the key check, so the check no longer
sees `ID`; no result is stored. -/
theorem c10_all_missing_id_rejected (re : ReadExcel) (f : RawFile)
    (rest : List RawFile) (t : RawTable) (s : Session)
    (hext : splitextExt (lowerStr f.name) = ".csv")
    (hread : csvRead f.content = .ok t)
    (hid : "ID" ∈ t.header)
    (hna : ∀ i, (hi : i < t.header.length) → t.header.get ⟨i, hi⟩ = "ID" →
      ∀ r ∈ t.rows, r.getD i Cell.na = Cell.na)
    (hlen : (f :: rest).length ≤ 5) :
    load_file re f = .ok (dropEmptyCols t) ∧
    check_expected_key (dropEmptyCols t) = false ∧
    process re (f :: rest) = .error (.missingKey f.name) ∧
    data_ingestion re (f :: rest) s = (s, .failure (.missingKey f.name)) := by
  have hload : load_file re f = .ok (dropEmptyCols t) := by
    simp [load_file, hext, hread, Except.map]
  have hcheck : check_expected_key (dropEmptyCols t) = false := by
    rw [check_expected_key]
    cases hc : (dropEmptyCols t).header.contains "ID" with
    | false => rfl
    | true =>
    exfalso
    have hmem : "ID" ∈ (dropEmptyCols t).header := List.elem_iff.mp hc
    obtain ⟨i, hget, hkeep⟩ := selectIdxs_mem _ _ _ _ hmem
    have hcp : colPresent t.rows (0 + i.val) = true := hkeep
    rw [Nat.zero_add] at hcp
    rw [colPresent, List.any_eq_true] at hcp
    obtain ⟨r, hr, hrn⟩ := hcp
    have hne : r.getD i.val Cell.na ≠ Cell.na := by simpa using hrn
    exact hne (hna i.val i.isLt hget r hr)
  have hproc : process re (f :: rest) = .error (.missingKey f.name) := by
    have hloop := loadLoop_missingKey re f rest (dropEmptyCols t) hload hcheck
      [] 0 ⟨[], [], []⟩ (by intro g hg; simp at hg) (by simp)
    simp only [List.nil_append] at hloop
    simp [process, hloop]
  exact ⟨hload, hcheck, hproc,
    data_ingestion_of_error _ _ _ _ (by simp) hlen hproc⟩

theorem c10_all_missing_id_rejected_witness :
    splitextExt (lowerStr "a.csv") = ".csv" ∧
    csvRead "ID,X\n,a\n,b\n"
        = .ok ⟨["ID", "X"], [[Cell.na, Cell.text "a"], [Cell.na, Cell.text "b"]]⟩ ∧
    "ID" ∈ (⟨["ID", "X"],
        [[Cell.na, Cell.text "a"], [Cell.na, Cell.text "b"]]⟩ : RawTable).header ∧
    process noExcel [⟨"a.csv", "ID,X\n,a\n,b\n"⟩]
        = .error (.missingKey "a.csv") := by
  have h := c10_all_missing_id_rejected noExcel ⟨"a.csv", "ID,X\n,a\n,b\n"⟩ []
    ⟨["ID", "X"], [[Cell.na, Cell.text "a"], [Cell.na, Cell.text "b"]]⟩
    ⟨none, none, none⟩ (by decide) (by decide) (by decide) (by decide) (by decide)
  exact ⟨by decide, by decide, by decide, h.2.2.1⟩

/-! ### C3: global uniqueness of the renamed non-key columns -/

/-- All renamed non-key column names across the given (fileName, table)
sources, in order — what enters the merge. -/
def renamedNonKey (sources : List (String × RawTable)) : List String :=
  sources.flatMap fun p => get_file_columns (rename_non_key_columns p.2 p.1)

theorem append_uu_inj :
    ∀ (l1 l2 r1 r2 : List Char), '_' ∉ l1 → '_' ∉ l2 →
      l1 ++ '_' :: '_' :: r1 = l2 ++ '_' :: '_' :: r2 → l1 = l2 ∧ r1 = r2 := by
  intro l1
  induction l1 with
  | nil =>
    intro l2 r1 r2 _ h2 he
    cases l2 with
    | nil => simpa using he
    | cons d l2 =>
      exfalso
      simp only [List.nil_append, List.cons_append, List.cons.injEq] at he
      exact h2 (he.1 ▸ List.mem_cons_self d l2)
  | cons c l1 ih =>
    intro l2 r1 r2 h1 h2 he
    cases l2 with
    | nil =>
      exfalso
      simp only [List.nil_append, List.cons_append, List.cons.injEq] at he
      exact h1 (he.1 ▸ List.mem_cons_self c l1)
    | cons d l2 =>
      simp only [List.cons_append, List.cons.injEq] at he
      obtain ⟨h3, h4⟩ := ih l2 r1 r2 (fun h => h1 (List.mem_cons_of_mem c h))
        (fun h => h2 (List.mem_cons_of_mem d h)) he.2
      exact ⟨by rw [he.1, h3], h4⟩

theorem suffix_inj (c1 c2 f1 f2 : String)
    (h1 : '_' ∉ c1.data) (h2 : '_' ∉ c2.data)
    (he : c1 ++ "__" ++ f1 = c2 ++ "__" ++ f2) : c1 = c2 ∧ f1 = f2 := by
  have hd : c1.data ++ '_' :: '_' :: f1.data
      = c2.data ++ '_' :: '_' :: f2.data := by
    have := congrArg String.data he
    simpa [String.data_append] using this
  obtain ⟨ha, hb⟩ := append_uu_inj _ _ _ _ h1 h2 hd
  exact ⟨String.ext ha, String.ext hb⟩

theorem renamed_ne_key (c f : String) : c ++ "__" ++ f ≠ "ID" := by
  intro heq
  have hu : '_' ∈ (c ++ "__" ++ f).data := by
    rw [String.data_append, String.data_append]
    exact List.mem_append.mpr (Or.inl (List.mem_append.mpr (Or.inr (by decide))))
  rw [heq] at hu
  exact absurd hu (by decide)

theorem rename_get_file_columns (t : RawTable) (f : String) :
    get_file_columns (rename_non_key_columns t f)
      = (t.header.filter fun c => c ≠ "ID").map fun c => c ++ "__" ++ f := by
  unfold get_file_columns rename_non_key_columns
  show ((t.header.map fun c => if c = "ID" then c else c ++ "__" ++ f).filter
      fun c => c ≠ "ID") = _
  induction t.header with
  | nil => rfl
  | cons c l ih =>
    by_cases hc : c = "ID"
    · subst hc
      simpa using ih
    · simp only [List.map_cons, if_neg hc, List.filter_cons]
      rw [if_pos (by simpa using renamed_ne_key c f),
          if_pos (by simpa using hc)]
      simpa using ih

theorem append_str_injective (suf : String) :
    Function.Injective fun c : String => c ++ suf := by
  intro a b h
  have hd : a.data ++ suf.data = b.data ++ suf.data := by
    have := congrArg String.data h
    simpa [String.data_append] using this
  exact String.ext (List.append_cancel_right hd)

/-- C3 (amended): renaming every non-key column of every source table to
`originalName__sourceName` yields globally distinct non-key column names,
provided the source names are pairwise distinct, each table's header has
no duplicates, and no original non-key column name contains an
underscore. -/
theorem c3_rename_global_uniqueness (sources : List (String × RawTable))
    (hnames : (sources.map Prod.fst).Nodup)
    (hnodup : ∀ p ∈ sources, p.2.header.Nodup)
    (hus : ∀ p ∈ sources, ∀ c ∈ p.2.header, c ≠ "ID" → '_' ∉ c.data) :
    (renamedNonKey sources).Nodup := by
  unfold renamedNonKey
  rw [List.nodup_flatMap]
  constructor
  · intro p hp
    rw [rename_get_file_columns]
    have hinj : Function.Injective fun c : String => c ++ "__" ++ p.1 :=
      fun a b h => append_str_injective "__" (append_str_injective p.1 h)
    exact List.Nodup.map hinj (List.Nodup.filter _ (hnodup p hp))
  · have hpw : List.Pairwise (fun p q : String × RawTable => p.1 ≠ q.1) sources :=
      List.pairwise_map.mp hnames
    refine List.Pairwise.imp_of_mem ?_ hpw
    intro p q hp hq hne x hxp hxq
    simp only [rename_get_file_columns] at hxp hxq
    obtain ⟨c1, hc1, hx1⟩ := List.mem_map.mp hxp
    obtain ⟨c2, hc2, hx2⟩ := List.mem_map.mp hxq
    have hm1 := List.mem_filter.mp hc1
    have hm2 := List.mem_filter.mp hc2
    have hu1 : '_' ∉ c1.data :=
      hus p hp c1 hm1.1 (by simpa using hm1.2)
    have hu2 : '_' ∉ c2.data :=
      hus q hq c2 hm2.1 (by simpa using hm2.2)
    have := suffix_inj c1 c2 p.1 q.1 hu1 hu2 (hx1.trans hx2.symm)
    exact hne this.2

theorem c3_rename_global_uniqueness_witness :
    ((([("a.csv", ⟨["ID", "X"], []⟩), ("b.csv", ⟨["ID", "X"], []⟩)] :
        List (String × RawTable)).map Prod.fst).Nodup ∧
      (∀ p ∈ ([("a.csv", ⟨["ID", "X"], []⟩), ("b.csv", ⟨["ID", "X"], []⟩)] :
        List (String × RawTable)), p.2.header.Nodup)) ∧
    (renamedNonKey
      [("a.csv", ⟨["ID", "X"], []⟩), ("b.csv", ⟨["ID", "X"], []⟩)]).Nodup :=
  ⟨⟨by decide, by decide⟩,
   c3_rename_global_uniqueness
     [("a.csv", ⟨["ID", "X"], []⟩), ("b.csv", ⟨["ID", "X"], []⟩)]
     (by decide) (by decide) (by decide)⟩

/-- C3 counterexample: with distinct legal source names `a.csv` and
`a__a.csv` and distinct non-key column names `X__a` and `X`, both renamed
columns come out as `X__a__a.csv`: the renaming scheme does not guarantee
global uniqueness for every input. -/
theorem c3_counterexample :
    ¬ (renamedNonKey [("a.csv", ⟨["ID", "X__a"], []⟩),
                      ("a__a.csv", ⟨["ID", "X"], []⟩)]).Nodup := by decide

/-! ### C7: the provenance maps after a successful combination -/

theorem upsert_of_fresh {α : Type} (m : List (String × α)) (k : String) (v : α)
    (h : ∀ p ∈ m, p.1 ≠ k) : upsert m k v = m ++ [(k, v)] := by
  unfold upsert
  rw [if_neg]
  simp only [List.any_eq_true, not_exists, not_and]
  intro p hp
  simpa using h p hp

theorem loadLoop_ok_maps (re : ReadExcel) :
    ∀ (files : List RawFile) (i : Nat) (acc acc' : LoadAcc),
      loadLoop re files i acc = .ok acc' →
      (files.map RawFile.name).Nodup →
      (∀ f ∈ files, ∀ p ∈ acc.colorMap, p.1 ≠ f.name) →
      (∀ f ∈ files, ∀ p ∈ acc.fileColumns, p.1 ≠ f.name) →
      acc'.colorMap = acc.colorMap
          ++ (files.enumFrom i).map
            (fun p => (p.2.name, (colorPalette.get? p.1).getD ""))
        ∧ acc'.fileColumns.map Prod.fst
          = acc.fileColumns.map Prod.fst ++ files.map RawFile.name := by
  intro files
  induction files with
  | nil =>
    intro i acc acc' h _ _ _
    have : acc = acc' := by simpa [loadLoop] using h
    subst this
    simp [List.enumFrom]
  | cons f fs ih =>
    intro i acc acc' h hnd hcm hfc
    cases hl : load_file re f with
    | error e =>
      simp only [loadLoop, hl] at h
      exact Except.noConfusion h
    | ok df =>
      simp only [loadLoop, hl] at h
      cases hc : check_expected_key df with
      | false => rw [hc] at h; simp at h
      | true =>
        rw [hc, if_pos rfl] at h
        cases hcol : colorPalette.get? i with
        | none =>
          rw [hcol] at h
          exact Except.noConfusion h
        | some col =>
          rw [hcol] at h
          have hfresh_cm : ∀ p ∈ acc.colorMap, p.1 ≠ f.name :=
            hcm f (List.mem_cons_self f fs)
          have hfresh_fc : ∀ p ∈ acc.fileColumns, p.1 ≠ f.name :=
            hfc f (List.mem_cons_self f fs)
          have h0 : (f.name :: fs.map RawFile.name).Nodup := by simpa using hnd
          have hnotin : f.name ∉ fs.map RawFile.name := (List.nodup_cons.mp h0).1
          have hnd' : (fs.map RawFile.name).Nodup := (List.nodup_cons.mp h0).2
          have hrec := ih (i + 1)
            ⟨acc.dfs ++ [rename_non_key_columns df f.name],
             upsert acc.fileColumns f.name
               (get_file_columns (rename_non_key_columns df f.name)),
             upsert acc.colorMap f.name col⟩ acc' h hnd'
            (by
              intro g hg p hp
              rw [upsert_of_fresh _ _ _ hfresh_cm] at hp
              rcases List.mem_append.mp hp with hp | hp
              · exact hcm g (List.mem_cons_of_mem f hg) p hp
              · have hpe : p = (f.name, col) := by simpa using hp
                rw [hpe]
                intro hcontra
                have hfg : f.name = g.name := hcontra
                exact hnotin (hfg ▸ List.mem_map_of_mem RawFile.name hg))
            (by
              intro g hg p hp
              rw [upsert_of_fresh _ _ _ hfresh_fc] at hp
              rcases List.mem_append.mp hp with hp | hp
              · exact hfc g (List.mem_cons_of_mem f hg) p hp
              · have hpe : p = (f.name,
                    get_file_columns (rename_non_key_columns df f.name)) := by
                  simpa using hp
                rw [hpe]
                intro hcontra
                have hfg : f.name = g.name := hcontra
                exact hnotin (hfg ▸ List.mem_map_of_mem RawFile.name hg))
          obtain ⟨h1, h2⟩ := hrec
          have hcold : (colorPalette.get? i).getD "" = col := by
            rw [hcol]; rfl
          constructor
          · rw [h1, upsert_of_fresh _ _ _ hfresh_cm]
            simp only [List.enumFrom, List.map_cons, hcold, List.append_assoc,
              List.singleton_append]
          · rw [h2, upsert_of_fresh _ _ _ hfresh_fc]
            simp

theorem process_ok_loadLoop (re : ReadExcel) (files : List RawFile)
    (m : KTable) (fc : FileCols) (cm : ColorMap)
    (hok : process re files = .ok (m, fc, cm)) :
    ∃ acc, loadLoop re files 0 ⟨[], [], []⟩ = .ok acc ∧
      fc = acc.fileColumns ∧ cm = acc.colorMap := by
  cases h1 : loadLoop re files 0 ⟨[], [], []⟩ with
  | error e => simp [process, h1] at hok
  | ok acc =>
    refine ⟨acc, rfl, ?_⟩
    simp only [process, h1] at hok
    cases h2 : acc.dfs with
    | nil => simp [h2] at hok
    | cons d ds =>
      simp only [h2] at hok
      cases h3 : sortKeyed (combineKeyed (toKeyed d) (ds.map toKeyed)) with
      | none => simp [h3] at hok
      | some m' =>
        simp only [h3] at hok
        have := Except.ok.inj hok
        exact ⟨(congrArg (fun p => p.2.1) this).symm,
               (congrArg (fun p => p.2.2) this).symm⟩

/-- C7 (amended): after a successful combination of sources with pairwise
distinct file names, both provenance maps have key lists exactly the
processed file names in upload order, and each source's color is the
palette entry at its upload index. -/
theorem c7_provenance_maps (re : ReadExcel) (files : List RawFile)
    (m : KTable) (fc : FileCols) (cm : ColorMap)
    (hnd : (files.map RawFile.name).Nodup)
    (hok : process re files = .ok (m, fc, cm)) :
    cm.map Prod.fst = files.map RawFile.name ∧
    fc.map Prod.fst = files.map RawFile.name ∧
    cm = (files.enumFrom 0).map
      (fun p => (p.2.name, (colorPalette.get? p.1).getD "")) := by
  obtain ⟨acc, hloop, hfc, hcm⟩ := process_ok_loadLoop re files m fc cm hok
  obtain ⟨h1, h2⟩ := loadLoop_ok_maps re files 0 ⟨[], [], []⟩ acc hloop hnd
    (by intro g _ p hp; simp at hp) (by intro g _ p hp; simp at hp)
  subst hfc hcm
  refine ⟨?_, by simpa using h2, by simpa using h1⟩
  rw [h1]
  simp only [List.nil_append, List.map_map]
  rw [show (Prod.fst ∘ fun p : Nat × RawFile =>
        (p.2.name, (colorPalette.get? p.1).getD ""))
      = RawFile.name ∘ Prod.snd from rfl]
  rw [← List.map_map]
  rw [List.enumFrom_map_snd]

theorem c7_provenance_maps_witness :
    (([⟨"s1.csv", "ID,X\n1,a\n2,b\n"⟩, ⟨"s2.csv", "ID,Y\n2,c\n3,d\n"⟩] :
        List RawFile).map RawFile.name).Nodup ∧
    ([("s1.csv", "#FFCFCF"), ("s2.csv", "#CFFFCF")] : ColorMap).map Prod.fst
        = ([⟨"s1.csv", "ID,X\n1,a\n2,b\n"⟩, ⟨"s2.csv", "ID,Y\n2,c\n3,d\n"⟩] :
        List RawFile).map RawFile.name ∧
    ([("s1.csv", ["X__s1.csv"]), ("s2.csv", ["Y__s2.csv"])] : FileCols).map
        Prod.fst
        = ([⟨"s1.csv", "ID,X\n1,a\n2,b\n"⟩, ⟨"s2.csv", "ID,Y\n2,c\n3,d\n"⟩] :
        List RawFile).map RawFile.name ∧
    ([("s1.csv", "#FFCFCF"), ("s2.csv", "#CFFFCF")] : ColorMap)
        = (([⟨"s1.csv", "ID,X\n1,a\n2,b\n"⟩, ⟨"s2.csv", "ID,Y\n2,c\n3,d\n"⟩] :
            List RawFile).enumFrom 0).map
          (fun p => (p.2.name, (colorPalette.get? p.1).getD "")) := by
  have h := c7_provenance_maps noExcel
    [⟨"s1.csv", "ID,X\n1,a\n2,b\n"⟩, ⟨"s2.csv", "ID,Y\n2,c\n3,d\n"⟩]
    ⟨["X__s1.csv", "Y__s2.csv"],
     [⟨Cell.num 1, [Cell.text "a", Cell.na]⟩,
      ⟨Cell.num 2, [Cell.text "b", Cell.text "c"]⟩,
      ⟨Cell.num 3, [Cell.na, Cell.text "d"]⟩]⟩
    [("s1.csv", ["X__s1.csv"]), ("s2.csv", ["Y__s2.csv"])]
    [("s1.csv", "#FFCFCF"), ("s2.csv", "#CFFFCF")]
    (by decide) (by decide)
  exact ⟨by decide, h.1, h.2.1, h.2.2⟩

/-- C7 counterexample: two distinct sources may carry the same file name
(`a.csv`); the combination succeeds, but the Python dicts key both sources
by that one name, so the source at upload index 0 ends up recorded with
the palette color of index 1 — its color is not determined by its own
upload-order index, and the first source's column attribution is lost. -/
theorem c7_counterexample :
    process noExcel [⟨"a.csv", "ID,X\n1,2\n"⟩, ⟨"a.csv", "ID,Y\n1,3\n"⟩]
        = .ok (⟨["X__a.csv", "Y__a.csv"],
               [⟨Cell.num 1, [Cell.num 2, Cell.num 3]⟩]⟩,
              [("a.csv", ["Y__a.csv"])], [("a.csv", "#CFFFCF")]) ∧
    ([("a.csv", "#CFFFCF")] : ColorMap).lookup "a.csv" = some "#CFFFCF" ∧
    (colorPalette.get? 0).getD "" = "#FFCFCF" ∧
    ("#CFFFCF" : String) ≠ "#FFCFCF" :=
  ⟨by decide, by decide, by decide, by decide⟩

/-! ### C1: outer-join cardinality and missing-key padding -/

theorem filter_key_length_le_one (rows : List KRow)
    (hnd : (rows.map KRow.key).Nodup) (k : Cell) :
    (rows.filter fun rr => decide (rr.key = k)).length ≤ 1 := by
  induction rows with
  | nil => simp
  | cons rr rows ih =>
    rw [List.map_cons, List.nodup_cons] at hnd
    rw [List.filter_cons]
    by_cases hk : rr.key = k
    · rw [if_pos (by simpa using hk)]
      have hempty : (rows.filter fun x => decide (x.key = k)) = [] := by
        rw [List.filter_eq_nil]
        intro x hx
        simp only [decide_eq_true_eq]
        intro hxk
        exact hnd.1 (hk ▸ hxk ▸ List.mem_map_of_mem KRow.key hx)
      rw [hempty]
      simp
    · rw [if_neg (by simpa using hk)]
      exact ih hnd.2

theorem keyList_mergeTables (l r : KTable) (hr : (keyList r).Nodup) :
    keyList (mergeTables l r)
      = keyList l ++ (keyList r).filter fun c => decide (c ∉ keyList l) := by
  unfold mergeTables keyList
  simp only [List.map_append]
  congr 1
  · -- left part: one output key per left row
    induction l.rows with
    | nil => simp
    | cons lr lrows ih =>
      rw [List.flatMap_cons, List.map_append, List.map_cons, ih]
      have hone : ((match r.rows.filter (fun rr => decide (rr.key = lr.key)) with
          | [] => [⟨lr.key, lr.vals ++ List.replicate r.cols.length Cell.na⟩]
          | ms => ms.map fun rr => ⟨lr.key, lr.vals ++ rr.vals⟩ : List KRow).map
            KRow.key) = [lr.key] := by
        cases hms : r.rows.filter (fun rr => decide (rr.key = lr.key)) with
        | nil => simp
        | cons m ms =>
          have hlen : (m :: ms).length ≤ 1 := by
            rw [← hms]
            exact filter_key_length_le_one r.rows hr lr.key
          have hms0 : ms = [] := by
            simp only [List.length_cons] at hlen
            exact List.length_eq_zero.mp (by omega)
          subst hms0
          simp
      rw [hone]
      rfl
  · -- right part: the unmatched right rows
    induction r.rows with
    | nil => simp
    | cons rr rrows ih =>
      rw [List.map_cons, List.filter_cons, List.filter_cons]
      by_cases hmem : rr.key ∈ l.rows.map KRow.key
      · have h1 : (l.rows.all fun lr => decide (lr.key ≠ rr.key)) = false := by
          rw [List.all_eq_false]
          obtain ⟨lr, hlr, hk⟩ := List.mem_map.mp hmem
          exact ⟨lr, hlr, by simp [hk]⟩
        rw [if_neg (by rw [h1]; exact Bool.false_ne_true),
            if_neg (by simp [hmem])]
        exact ih
      · have h1 : (l.rows.all fun lr => decide (lr.key ≠ rr.key)) = true := by
          rw [List.all_eq_true]
          intro lr hlr
          simp only [decide_eq_true_eq]
          intro hk
          exact hmem (hk ▸ List.mem_map_of_mem KRow.key hlr)
        rw [if_pos h1, if_pos (by simpa using hmem)]
        simp only [List.map_cons]
        exact congrArg (List.cons rr.key) ih

theorem keyList_mergeTables_nodup (l r : KTable)
    (hl : (keyList l).Nodup) (hr : (keyList r).Nodup) :
    (keyList (mergeTables l r)).Nodup := by
  rw [keyList_mergeTables l r hr]
  refine List.Nodup.append hl (List.Nodup.filter _ hr) ?_
  intro c hcl hcf
  have := (List.mem_filter.mp hcf).2
  simp only [decide_eq_true_eq] at this
  exact this hcl

theorem mem_keyList_mergeTables (l r : KTable) (hr : (keyList r).Nodup)
    (c : Cell) :
    c ∈ keyList (mergeTables l r) ↔ c ∈ keyList l ∨ c ∈ keyList r := by
  rw [keyList_mergeTables l r hr]
  simp only [List.mem_append, List.mem_filter, decide_eq_true_eq]
  constructor
  · rintro (h | ⟨h, _⟩)
    · exact Or.inl h
    · exact Or.inr h
  · intro h
    by_cases hcl : c ∈ keyList l
    · exact Or.inl hcl
    · rcases h with h | h
      · exact absurd h hcl
      · exact Or.inr ⟨h, by simpa using hcl⟩

theorem mergeTables_cols_length (l r : KTable) :
    (mergeTables l r).cols.length = l.cols.length + r.cols.length := by
  simp [mergeTables]

theorem rows_mergeTables (l r : KTable) (row : KRow)
    (hrow : row ∈ (mergeTables l r).rows) :
    (∃ lr ∈ l.rows, row.key = lr.key ∧
      ((∃ rr ∈ r.rows, rr.key = lr.key ∧ row.vals = lr.vals ++ rr.vals) ∨
       (row.vals = lr.vals ++ List.replicate r.cols.length Cell.na ∧
        row.key ∉ keyList r)))
    ∨ (∃ rr ∈ r.rows, row.key = rr.key ∧
        row.vals = List.replicate l.cols.length Cell.na ++ rr.vals) := by
  unfold mergeTables at hrow
  simp only at hrow
  rcases List.mem_append.mp hrow with hrow | hrow
  · left
    obtain ⟨lr, hlr, hin⟩ := List.mem_flatMap.mp hrow
    refine ⟨lr, hlr, ?_⟩
    cases hms : r.rows.filter (fun rr => decide (rr.key = lr.key)) with
    | nil =>
      rw [hms] at hin
      have hrl : row = ⟨lr.key, lr.vals ++ List.replicate r.cols.length Cell.na⟩ := by
        simpa using hin
      subst hrl
      refine ⟨rfl, Or.inr ⟨rfl, ?_⟩⟩
      intro hk
      obtain ⟨rr, hrr, hke⟩ := List.mem_map.mp hk
      have := List.filter_eq_nil.mp hms rr hrr
      simp only [decide_eq_true_eq] at this
      exact this hke
    | cons m ms =>
      rw [hms] at hin
      obtain ⟨rr, hrr, hre⟩ := List.mem_map.mp hin
      have hrr2 : rr ∈ r.rows ∧ rr.key = lr.key := by
        have := List.mem_filter.mp (hms ▸ hrr)
        exact ⟨this.1, by simpa using this.2⟩
      subst hre
      exact ⟨rfl, Or.inl ⟨rr, hrr2.1, hrr2.2, rfl⟩⟩
  · right
    obtain ⟨rr, hrr, hre⟩ := List.mem_map.mp hrow
    have hrr2 : rr ∈ r.rows := (List.mem_filter.mp hrr).1
    subst hre
    exact ⟨rr, hrr2, rfl, rfl⟩

theorem mergeTables_wf (l r : KTable) (hl : l.Wf) (hr : r.Wf) :
    (mergeTables l r).Wf := by
  intro row hrow
  rw [mergeTables_cols_length]
  rcases rows_mergeTables l r row hrow with
    ⟨lr, hlr, _, ⟨rr, hrr, _, hv⟩ | ⟨hv, _⟩⟩ | ⟨rr, hrr, _, hv⟩
  · rw [hv]
    simp [hl lr hlr, hr rr hrr]
  · rw [hv]
    simp [hl lr hlr]
  · rw [hv]
    simp [hr rr hrr]

/-- The total number of non-key columns of a list of keyed tables. -/
def widthsSum (ts : List KTable) : Nat :=
  (ts.map fun t => t.cols.length).sum

/-- Missing-slice property `MissSl off ts m`: for each table of `ts` (its columns
occupying a slice of `m`'s columns starting at `off`), every row of `m`
whose key does not occur in that table has only missing cells in that
table's slice. -/
def MissSl : Nat → List KTable → KTable → Prop
  | _, [], _ => True
  | off, t :: ts, m =>
    (∀ row ∈ m.rows, row.key ∉ keyList t →
      (row.vals.drop off).take t.cols.length
        = List.replicate t.cols.length Cell.na)
    ∧ MissSl (off + t.cols.length) ts m

def missSlDecidable :
    (off : Nat) → (ts : List KTable) → (m : KTable) → Decidable (MissSl off ts m)
  | _, [], _ => isTrue trivial
  | off, t :: ts, m => by
    have h := missSlDecidable (off + t.cols.length) ts m
    unfold MissSl
    infer_instance

instance (off : Nat) (ts : List KTable) (m : KTable) :
    Decidable (MissSl off ts m) := missSlDecidable off ts m

theorem drop_take_append_left {α : Type} (l1 l2 : List α) (off w : Nat)
    (h : off + w ≤ l1.length) :
    ((l1 ++ l2).drop off).take w = (l1.drop off).take w := by
  rw [List.drop_append_of_le_length (by omega)]
  rw [List.take_append_of_le_length (by simp; omega)]

theorem drop_take_replicate (n off w : Nat) (h : off + w ≤ n) :
    ((List.replicate n Cell.na).drop off).take w
      = List.replicate w Cell.na := by
  rw [List.drop_replicate, List.take_replicate]
  congr 1
  omega

theorem missSl_append (ts1 ts2 : List KTable) :
    ∀ (off : Nat) (m : KTable),
      MissSl off (ts1 ++ ts2) m
        ↔ MissSl off ts1 m ∧ MissSl (off + widthsSum ts1) ts2 m := by
  induction ts1 with
  | nil =>
    intro off m
    simp [MissSl, widthsSum]
  | cons t ts1 ih =>
    intro off m
    rw [List.cons_append]
    show (_ ∧ MissSl (off + t.cols.length) (ts1 ++ ts2) m) ↔ _
    rw [ih]
    have : off + t.cols.length + widthsSum ts1
        = off + widthsSum (t :: ts1) := by
      simp [widthsSum]
      omega
    rw [this]
    show _ ↔ ((_ ∧ MissSl (off + t.cols.length) ts1 m) ∧ _)
    tauto

theorem missSl_mono_rows (ts : List KTable) :
    ∀ (off : Nat) (m m' : KTable),
      (∀ row ∈ m'.rows, row ∈ m.rows) →
      MissSl off ts m → MissSl off ts m' := by
  induction ts with
  | nil => intro off m m' _ _; trivial
  | cons t ts ih =>
    intro off m m' hsub h
    exact ⟨fun row hrow hk => h.1 row (hsub row hrow) hk,
           ih _ m m' hsub h.2⟩

theorem missSl_merge_left (C t : KTable) (hC : C.Wf) :
    ∀ (ts : List KTable) (off : Nat),
      off + widthsSum ts ≤ C.cols.length →
      MissSl off ts C → MissSl off ts (mergeTables C t) := by
  intro ts
  induction ts with
  | nil => intro off _ _; trivial
  | cons t1 ts ih =>
    intro off hb hm
    have hb1 : off + t1.cols.length ≤ C.cols.length := by
      simp [widthsSum] at hb
      omega
    refine ⟨?_, ih (off + t1.cols.length)
      (by simp [widthsSum] at hb ⊢; omega) hm.2⟩
    intro row hrow hkey
    rcases rows_mergeTables C t row hrow with
      ⟨lr, hlr, hkeq, hv⟩ | ⟨rr, hrr, hkeq, hv⟩
    · have hlen : lr.vals.length = C.cols.length := hC lr hlr
      have hslice : (lr.vals.drop off).take t1.cols.length
          = List.replicate t1.cols.length Cell.na := by
        apply hm.1 lr hlr
        rw [← hkeq]
        exact hkey
      rcases hv with ⟨rr, _, _, hv⟩ | ⟨hv, _⟩ <;>
        rw [hv, drop_take_append_left _ _ _ _ (by omega), hslice]
    · rw [hv, drop_take_append_left _ _ _ _ (by simp; omega)]
      exact drop_take_replicate _ _ _ (by omega)

theorem missSl_merge_last (C t : KTable) (hC : C.Wf) :
    ∀ row ∈ (mergeTables C t).rows, row.key ∉ keyList t →
      (row.vals.drop C.cols.length).take t.cols.length
        = List.replicate t.cols.length Cell.na := by
  intro row hrow hkey
  rcases rows_mergeTables C t row hrow with
    ⟨lr, hlr, hkeq, hv⟩ | ⟨rr, hrr, hkeq, hv⟩
  · rcases hv with ⟨rr, hrr, hrk, hv⟩ | ⟨hv, _⟩
    · exfalso
      apply hkey
      rw [hkeq, ← hrk]
      exact List.mem_map_of_mem KRow.key hrr
    · rw [hv]
      have hlen : lr.vals.length = C.cols.length := hC lr hlr
      rw [← hlen, List.drop_left, List.take_replicate]
      simp
  · exfalso
    apply hkey
    rw [hkeq]
    exact List.mem_map_of_mem KRow.key hrr

theorem combineKeyed_spec (k : KTable) (rest : List KTable)
    (hwf : ∀ t ∈ k :: rest, t.Wf)
    (hnd : ∀ t ∈ k :: rest, (keyList t).Nodup) :
    (combineKeyed k rest).Wf
    ∧ (combineKeyed k rest).cols.length = widthsSum (k :: rest)
    ∧ (keyList (combineKeyed k rest)).Nodup
    ∧ (∀ c, c ∈ keyList (combineKeyed k rest) ↔ c ∈ (k :: rest).flatMap keyList)
    ∧ MissSl 0 (k :: rest) (combineKeyed k rest) := by
  induction rest using List.reverseRecOn with
  | nil =>
    refine ⟨hwf k (by simp), by simp [widthsSum, combineKeyed],
      hnd k (by simp), by simp [combineKeyed], ?_, trivial⟩
    intro row hrow hkey
    exact absurd (List.mem_map_of_mem KRow.key hrow) hkey
  | append_singleton rest t ih =>
    have hsub : ∀ u ∈ k :: rest, u ∈ k :: (rest ++ [t]) := by
      intro u hu
      rcases List.mem_cons.mp hu with hu | hu
      · exact hu ▸ List.mem_cons_self _ _
      · exact List.mem_cons_of_mem _ (List.mem_append_left _ hu)
    obtain ⟨iwf, icols, ind, imem, imiss⟩ :=
      ih (fun u hu => hwf u (hsub u hu)) (fun u hu => hnd u (hsub u hu))
    have htwf : t.Wf := hwf t (by simp)
    have htnd : (keyList t).Nodup := hnd t (by simp)
    have hcomb : combineKeyed k (rest ++ [t])
        = mergeTables (combineKeyed k rest) t := by
      simp [combineKeyed, List.foldl_append]
    rw [hcomb]
    refine ⟨mergeTables_wf _ _ iwf htwf, ?_, keyList_mergeTables_nodup _ _ ind htnd,
      ?_, ?_⟩
    · rw [mergeTables_cols_length, icols]
      simp [widthsSum]
      omega
    · intro c
      rw [mem_keyList_mergeTables _ _ htnd c, imem c]
      simp only [List.flatMap_cons, List.flatMap_append, List.mem_append,
        List.flatMap_cons, List.flatMap_nil, List.append_nil]
      tauto
    · have hsplit : (k :: (rest ++ [t])) = (k :: rest) ++ [t] := by simp
      rw [hsplit, missSl_append]
      constructor
      · exact missSl_merge_left _ t iwf (k :: rest) 0
          (by rw [icols]; omega) imiss
      · refine ⟨?_, trivial⟩
        have h0 : (0 : Nat) + widthsSum (k :: rest)
            = (combineKeyed k rest).cols.length := by
          rw [icols]; omega
        rw [h0]
        exact missSl_merge_last _ t iwf

theorem sortKeyed_rows_perm (t out : KTable) (hs : sortKeyed t = some out) :
    out.rows.Perm t.rows ∧ out.cols = t.cols := by
  unfold sortKeyed at hs
  dsimp only at hs
  split at hs
  · have hout : out = ⟨t.cols,
        List.insertionSort rowLe (t.rows.filter fun r => decide (r.key ≠ Cell.na))
          ++ t.rows.filter fun r => decide (r.key = Cell.na)⟩ :=
      (Option.some.inj hs).symm
    refine ⟨?_, by rw [hout]⟩
    rw [hout]
    have hq : (fun r : KRow => decide (r.key = Cell.na))
        = fun r => !(decide (r.key ≠ Cell.na)) := by
      funext r
      rw [decide_not, Bool.not_not]
    exact ((List.perm_insertionSort rowLe _).append_right _).trans
      (by rw [hq]; exact List.filter_append_perm _ _)
  · exact absurd hs (by simp)

/-- C1 (amended): for 1-5 loaded tables that all contain the key column
`ID`, provided each table's `ID` values are distinct within that table,
the sorted outer-merge fold on `ID` has exactly one row per distinct `ID`
value across all inputs, and a key missing from some source has only
missing cells in that source's column slice of its row. -/
theorem c1_join_outer_cardinality (k : KTable) (rest : List KTable)
    (out : KTable)
    (hwf : ∀ t ∈ k :: rest, t.Wf)
    (hnd : ∀ t ∈ k :: rest, (keyList t).Nodup)
    (hlen : (k :: rest).length ≤ 5)
    (hs : sortKeyed (combineKeyed k rest) = some out) :
    out.rows.length = ((k :: rest).flatMap keyList).dedup.length
    ∧ MissSl 0 (k :: rest) out := by
  obtain ⟨hperm, hcols⟩ := sortKeyed_rows_perm _ _ hs
  obtain ⟨cwf, ccols, cnd, cmem, cmiss⟩ := combineKeyed_spec k rest hwf hnd
  constructor
  · rw [hperm.length_eq]
    have h1 : (combineKeyed k rest).rows.length
        = (keyList (combineKeyed k rest)).length := by
      simp [keyList]
    rw [h1]
    have h2 : (keyList (combineKeyed k rest)).toFinset
        = ((k :: rest).flatMap keyList).toFinset := by
      ext c
      simp only [List.mem_toFinset]
      exact cmem c
    calc (keyList (combineKeyed k rest)).length
        = (keyList (combineKeyed k rest)).dedup.length := by
          rw [List.Nodup.dedup cnd]
      _ = (keyList (combineKeyed k rest)).toFinset.card :=
          (List.card_toFinset _).symm
      _ = ((k :: rest).flatMap keyList).toFinset.card := by rw [h2]
      _ = ((k :: rest).flatMap keyList).dedup.length := List.card_toFinset _
  · exact missSl_mono_rows _ 0 _ out (fun row hr => hperm.subset hr) cmiss

theorem c1_join_outer_cardinality_witness :
    (∀ t ∈ ([⟨["X__s1.csv"], [⟨Cell.num 1, [Cell.text "a"]⟩,
                              ⟨Cell.num 2, [Cell.text "b"]⟩]⟩,
             ⟨["Y__s2.csv"], [⟨Cell.num 2, [Cell.text "c"]⟩,
                              ⟨Cell.num 3, [Cell.text "d"]⟩]⟩] : List KTable),
      t.Wf) ∧
    (∀ t ∈ ([⟨["X__s1.csv"], [⟨Cell.num 1, [Cell.text "a"]⟩,
                              ⟨Cell.num 2, [Cell.text "b"]⟩]⟩,
             ⟨["Y__s2.csv"], [⟨Cell.num 2, [Cell.text "c"]⟩,
                              ⟨Cell.num 3, [Cell.text "d"]⟩]⟩] : List KTable),
      (keyList t).Nodup) ∧
    sortKeyed (combineKeyed
        ⟨["X__s1.csv"], [⟨Cell.num 1, [Cell.text "a"]⟩,
                         ⟨Cell.num 2, [Cell.text "b"]⟩]⟩
        [⟨["Y__s2.csv"], [⟨Cell.num 2, [Cell.text "c"]⟩,
                          ⟨Cell.num 3, [Cell.text "d"]⟩]⟩])
      = some ⟨["X__s1.csv", "Y__s2.csv"],
              [⟨Cell.num 1, [Cell.text "a", Cell.na]⟩,
               ⟨Cell.num 2, [Cell.text "b", Cell.text "c"]⟩,
               ⟨Cell.num 3, [Cell.na, Cell.text "d"]⟩]⟩ ∧
    ((⟨["X__s1.csv", "Y__s2.csv"],
       [⟨Cell.num 1, [Cell.text "a", Cell.na]⟩,
        ⟨Cell.num 2, [Cell.text "b", Cell.text "c"]⟩,
        ⟨Cell.num 3, [Cell.na, Cell.text "d"]⟩]⟩ : KTable).rows.length
        = (([⟨["X__s1.csv"], [⟨Cell.num 1, [Cell.text "a"]⟩,
                              ⟨Cell.num 2, [Cell.text "b"]⟩]⟩,
             ⟨["Y__s2.csv"], [⟨Cell.num 2, [Cell.text "c"]⟩,
                              ⟨Cell.num 3, [Cell.text "d"]⟩]⟩] :
            List KTable).flatMap keyList).dedup.length
      ∧ MissSl 0
          [⟨["X__s1.csv"], [⟨Cell.num 1, [Cell.text "a"]⟩,
                            ⟨Cell.num 2, [Cell.text "b"]⟩]⟩,
           ⟨["Y__s2.csv"], [⟨Cell.num 2, [Cell.text "c"]⟩,
                            ⟨Cell.num 3, [Cell.text "d"]⟩]⟩]
          ⟨["X__s1.csv", "Y__s2.csv"],
           [⟨Cell.num 1, [Cell.text "a", Cell.na]⟩,
            ⟨Cell.num 2, [Cell.text "b", Cell.text "c"]⟩,
            ⟨Cell.num 3, [Cell.na, Cell.text "d"]⟩]⟩) :=
  ⟨by decide, by decide, by decide,
   c1_join_outer_cardinality
     ⟨["X__s1.csv"], [⟨Cell.num 1, [Cell.text "a"]⟩,
                      ⟨Cell.num 2, [Cell.text "b"]⟩]⟩
     [⟨["Y__s2.csv"], [⟨Cell.num 2, [Cell.text "c"]⟩,
                       ⟨Cell.num 3, [Cell.text "d"]⟩]⟩]
     ⟨["X__s1.csv", "Y__s2.csv"],
      [⟨Cell.num 1, [Cell.text "a", Cell.na]⟩,
       ⟨Cell.num 2, [Cell.text "b", Cell.text "c"]⟩,
       ⟨Cell.num 3, [Cell.na, Cell.text "d"]⟩]⟩
     (by decide) (by decide) (by decide) (by decide)⟩

/-- C1 counterexample: a single uploaded CSV with a duplicated `ID` value
is a valid input (the only validation is the presence of the `ID`
column), yet the stored combined table keeps both rows: 2 output rows
against 1 distinct `ID` value across the inputs, refuting the claimed
outer-join cardinality for all valid inputs. -/
theorem c1_counterexample :
    process noExcel [⟨"a.csv", "ID,X\n1,a\n1,b\n"⟩]
        = .ok (⟨["X__a.csv"],
               [⟨Cell.num 1, [Cell.text "a"]⟩, ⟨Cell.num 1, [Cell.text "b"]⟩]⟩,
              [("a.csv", ["X__a.csv"])], [("a.csv", "#FFCFCF")]) ∧
    (⟨["X__a.csv"],
      [⟨Cell.num 1, [Cell.text "a"]⟩, ⟨Cell.num 1, [Cell.text "b"]⟩]⟩ :
        KTable).rows.length = 2 ∧
    (keyList ⟨["X__a.csv"],
      [⟨Cell.num 1, [Cell.text "a"]⟩,
       ⟨Cell.num 1, [Cell.text "b"]⟩]⟩).dedup.length = 1 :=
  ⟨by decide, by decide, by decide⟩

/-! ### C8: CSV export / reload round trip -/

theorem charDigit_digitChar : ∀ d, d < 10 → charDigit (digitChar d) = d := by
  decide

theorem isDigitB_digitChar : ∀ d, d < 10 → isDigitB (digitChar d) = true := by
  decide

theorem parseNatChars_append_one (a : List Char) (c : Char) :
    parseNatChars (a ++ [c]) = 10 * parseNatChars a + charDigit c := by
  unfold parseNatChars
  rw [List.foldl_append]
  rfl

theorem natChars_spec :
    ∀ fuel n, n < fuel →
      parseNatChars (natChars fuel n) = n
      ∧ natChars fuel n ≠ []
      ∧ ∀ c ∈ natChars fuel n, isDigitB c = true := by
  intro fuel
  induction fuel with
  | zero => intro n h; omega
  | succ f ih =>
    intro n h
    by_cases h10 : n < 10
    · rw [natChars, if_pos h10]
      refine ⟨?_, by simp, ?_⟩
      · show 10 * 0 + charDigit (digitChar n) = n
        rw [charDigit_digitChar n h10]
        omega
      · intro c hc
        rw [List.mem_singleton.mp hc]
        exact isDigitB_digitChar n h10
    · rw [natChars, if_neg h10]
      have hdiv : n / 10 < f := by omega
      obtain ⟨hp, _, hd⟩ := ih (n / 10) hdiv
      refine ⟨?_, by simp, ?_⟩
      · rw [parseNatChars_append_one, hp, charDigit_digitChar _ (by omega)]
        omega
      · intro c hc
        rcases List.mem_append.mp hc with hc | hc
        · exact hd c hc
        · rw [List.mem_singleton.mp hc]
          exact isDigitB_digitChar _ (by omega)

theorem isDigitB_ne_special (c : Char) (h : isDigitB c = true) :
    c ≠ ',' ∧ c ≠ '\n' ∧ c ≠ '-' := by
  refine ⟨?_, ?_, ?_⟩ <;> rintro rfl <;> revert h <;> decide

theorem intChars_spec (n : Int) :
    parseIntStr (String.mk (intChars n)) = n
    ∧ intChars n ≠ []
    ∧ isIntStr (String.mk (intChars n)) = true
    ∧ ',' ∉ intChars n ∧ '\n' ∉ intChars n := by
  cases n with
  | ofNat m =>
    obtain ⟨hp, hne, hd⟩ := natChars_spec (m + 1) m (by omega)
    obtain ⟨c, cs, hcs⟩ := List.exists_cons_of_ne_nil hne
    have hcd : isDigitB c = true := hd c (by rw [hcs]; simp)
    have hcne : c ≠ '-' := (isDigitB_ne_special c hcd).2.2
    refine ⟨?_, ?_, ?_, ?_, ?_⟩
    · show parseIntStr ⟨natChars (m + 1) m⟩ = Int.ofNat m
      rw [parseIntStr, hcs]
      dsimp only
      rw [if_neg hcne, ← hcs, hp]
      rfl
    · exact hne
    · show isIntStr ⟨natChars (m + 1) m⟩ = true
      rw [isIntStr, hcs]
      dsimp only
      rw [if_neg hcne, ← hcs]
      rw [List.all_eq_true]
      exact hd
    · intro hc
      exact absurd rfl (isDigitB_ne_special _ (hd _ hc)).1
    · intro hc
      exact absurd rfl (isDigitB_ne_special _ (hd _ hc)).2.1
  | negSucc m =>
    obtain ⟨hp, hne, hd⟩ := natChars_spec (m + 2) (m + 1) (by omega)
    refine ⟨?_, by simp [intChars], ?_, ?_, ?_⟩
    · show parseIntStr ⟨'-' :: natChars (m + 2) (m + 1)⟩ = Int.negSucc m
      rw [parseIntStr]
      dsimp only
      rw [if_pos rfl, hp]
      rw [Int.negSucc_eq]
      omega
    · show isIntStr ⟨'-' :: natChars (m + 2) (m + 1)⟩ = true
      rw [isIntStr]
      dsimp only
      rw [if_pos rfl]
      simp only [Bool.and_eq_true, List.all_eq_true]
      exact ⟨by simpa using hne, hd⟩
    · intro hc
      rcases List.mem_cons.mp hc with hc | hc
      · exact absurd hc.symm (by decide)
      · exact absurd rfl (isDigitB_ne_special _ (hd _ hc)).1
    · intro hc
      rcases List.mem_cons.mp hc with hc | hc
      · exact absurd hc.symm (by decide)
      · exact absurd rfl (isDigitB_ne_special _ (hd _ hc)).2.1

theorem naStrings_not_int : ∀ s ∈ naStrings, isIntStr s = false := by
  decide

theorem intChars_not_na (n : Int) :
    naStrings.contains (String.mk (intChars n)) = false := by
  cases hc : naStrings.contains (String.mk (intChars n)) with
  | false => rfl
  | true =>
    exfalso
    have hmem := List.elem_iff.mp hc
    have := naStrings_not_int _ hmem
    rw [(intChars_spec n).2.2.1] at this
    exact absurd this (by simp)

theorem splitSep_ne_nil (sep : Char) : ∀ cs, splitSep sep cs ≠ [] := by
  intro cs
  induction cs with
  | nil => simp [splitSep]
  | cons c cs ih =>
    rw [splitSep]
    cases h : splitSep sep cs with
    | nil => exact absurd h ih
    | cons f rest =>
      by_cases hc : c = sep <;> simp [hc]

theorem splitSep_no_sep (sep : Char) :
    ∀ cs, sep ∉ cs → splitSep sep cs = [cs] := by
  intro cs
  induction cs with
  | nil => intro _; rfl
  | cons c cs ih =>
    intro h
    have hc : c ≠ sep := fun hh => h (hh ▸ List.mem_cons_self c cs)
    have hcs : sep ∉ cs := fun hh => h (List.mem_cons_of_mem c hh)
    rw [splitSep, ih hcs]
    dsimp only
    rw [if_neg hc]

theorem splitSep_append_sep (sep : Char) :
    ∀ (x r : List Char), sep ∉ x →
      splitSep sep (x ++ sep :: r) = x :: splitSep sep r := by
  intro x
  induction x with
  | nil =>
    intro r _
    rw [List.nil_append, splitSep]
    cases h : splitSep sep r with
    | nil => exact absurd h (splitSep_ne_nil sep r)
    | cons f rest =>
      dsimp only
      rw [if_pos rfl]
  | cons c x ih =>
    intro r h
    have hc : c ≠ sep := fun hh => h (hh ▸ List.mem_cons_self c x)
    have hx : sep ∉ x := fun hh => h (List.mem_cons_of_mem c hh)
    rw [List.cons_append, splitSep, ih r hx]
    dsimp only
    rw [if_neg hc]

theorem splitSep_joinSep (sep : Char) :
    ∀ xss : List (List Char), xss ≠ [] → (∀ xs ∈ xss, sep ∉ xs) →
      splitSep sep (joinSep sep xss) = xss := by
  intro xss
  induction xss with
  | nil => intro h _; exact absurd rfl h
  | cons x xss ih =>
    intro _ hsep
    cases xss with
    | nil =>
      exact splitSep_no_sep sep x (hsep x (List.mem_cons_self x []))
    | cons y yss =>
      show splitSep sep (x ++ sep :: joinSep sep (y :: yss)) = _
      rw [splitSep_append_sep sep x _ (hsep x (List.mem_cons_self _ _))]
      rw [ih (by simp) (fun xs hxs => hsep xs (List.mem_cons_of_mem x hxs))]

theorem joinSep_cons (sep : Char) (f : List Char) (fs : List (List Char))
    (h : fs ≠ []) : joinSep sep (f :: fs) = f ++ sep :: joinSep sep fs := by
  cases fs with
  | nil => exact absurd rfl h
  | cons g gs => rfl

theorem flatMap_lines (lines : List (List Char)) :
    (lines.flatMap fun l => l ++ ['\n']) = joinSep '\n' (lines ++ [[]]) := by
  induction lines with
  | nil => rfl
  | cons l ls ih =>
    rw [List.flatMap_cons, ih, List.cons_append,
        joinSep_cons _ _ _ (by simp)]
    simp

theorem mem_joinSep (sep : Char) :
    ∀ (xss : List (List Char)) (c : Char), c ∈ joinSep sep xss →
      c = sep ∨ ∃ xs ∈ xss, c ∈ xs := by
  intro xss
  induction xss with
  | nil => intro c hc; simp [joinSep] at hc
  | cons x xss ih =>
    intro c hc
    cases xss with
    | nil =>
      exact Or.inr ⟨x, List.mem_cons_self x [], hc⟩
    | cons y yss =>
      rw [joinSep_cons _ _ _ (by simp)] at hc
      rcases List.mem_append.mp hc with hc | hc
      · exact Or.inr ⟨x, List.mem_cons_self _ _, hc⟩
      · rcases List.mem_cons.mp hc with hc | hc
        · exact Or.inl hc
        · rcases ih c hc with hc | ⟨xs, hxs, hcx⟩
          · exact Or.inl hc
          · exact Or.inr ⟨xs, List.mem_cons_of_mem x hxs, hcx⟩

/-- The CSV field written for one cell, as a string. -/
def fieldStr (cl : Cell) : String :=
  String.mk (writeCell cl)

/-- A cell that serializes losslessly without quoting: text must not be an
NA sentinel and must contain no comma or newline (quoting and multi-line
fields are outside the model). -/
def cellSafe : Cell → Prop
  | Cell.text s => naStrings.contains s = false ∧ ',' ∉ s.data ∧ '\n' ∉ s.data
  | _ => True

instance : ∀ cl, Decidable (cellSafe cl)
  | Cell.num _ => isTrue trivial
  | Cell.na => isTrue trivial
  | Cell.text s => by unfold cellSafe; infer_instance

/-- A text cell that does not read back as a number. -/
def textNonNum : Cell → Bool
  | Cell.text s => !isIntStr s
  | _ => false

/-- A homogeneous numeric column: every cell missing or numeric. -/
def NumColP (col : List Cell) : Prop :=
  ∀ cl ∈ col, cl = Cell.na ∨ isNumCell cl = true

/-- A homogeneous text column that stays text on re-reading: every cell
missing or text, and some text cell is not an integer literal. -/
def TextColP (col : List Cell) : Prop :=
  (∀ cl ∈ col, cl = Cell.na ∨ isTextCell cl = true)
  ∧ ∃ cl ∈ col, textNonNum cl = true

instance (col : List Cell) : Decidable (NumColP col) := by
  unfold NumColP; infer_instance

instance (col : List Cell) : Decidable (TextColP col) := by
  unfold TextColP; infer_instance

/-- Column `j` of a table (missing when a row is too short). -/
def colOf (t : RawTable) (j : Nat) : List Cell :=
  t.rows.map fun r => r.getD j Cell.na

/-- A column name that serializes losslessly: nonempty, no comma or
newline. -/
def nameSafe (c : String) : Prop :=
  c.data ≠ [] ∧ ',' ∉ c.data ∧ '\n' ∉ c.data

instance (c : String) : Decidable (nameSafe c) := by
  unfold nameSafe; infer_instance

theorem getD_map_lt {α β : Type} (f : α → β) :
    ∀ (l : List α) (j : Nat), j < l.length → ∀ (d : α) (d2 : β),
      (l.map f).getD j d2 = f (l.getD j d) := by
  intro l
  induction l with
  | nil => intro j hj; intro _ _; simp at hj
  | cons a l ih =>
    intro j hj d d2
    cases j with
    | zero => rfl
    | succ j =>
      rw [List.map_cons, List.getD_cons_succ, List.getD_cons_succ]
      exact ih j (by simpa using hj) d d2

theorem getD_mem {α : Type} :
    ∀ (l : List α) (j : Nat), j < l.length → ∀ d : α, l.getD j d ∈ l := by
  intro l
  induction l with
  | nil => intro j hj _; simp at hj
  | cons a l ih =>
    intro j hj d
    cases j with
    | zero => exact List.mem_cons_self a l
    | succ j =>
      rw [List.getD_cons_succ]
      exact List.mem_cons_of_mem a (ih j (by simpa using hj) d)

theorem selectIdxs_all_keep {α : Type} (keep : Nat → Bool) :
    ∀ (l : List α) (j : Nat), (∀ i, i < l.length → keep (j + i) = true) →
      selectIdxs keep j l = l := by
  intro l
  induction l with
  | nil => intro j _; rfl
  | cons a l ih =>
    intro j h
    rw [selectIdxs, if_pos (by simpa using h 0 (by simp))]
    rw [ih (j + 1) fun i hi => by
      rw [show j + 1 + i = j + (i + 1) by omega]
      exact h (i + 1) (by simpa using Nat.succ_lt_succ hi)]

theorem dropEmptyCols_id (t : RawTable) (hwf : t.Wf)
    (hpres : ∀ j, j < t.header.length → colPresent t.rows j = true) :
    dropEmptyCols t = t := by
  obtain ⟨header, rows⟩ := t
  unfold dropEmptyCols
  simp only at hpres hwf ⊢
  congr 1
  · exact selectIdxs_all_keep _ header 0 fun i hi => by
      rw [Nat.zero_add]; exact hpres i hi
  · have : ∀ r ∈ rows, selectIdxs (colPresent rows) 0 r = r := by
      intro r hr
      exact selectIdxs_all_keep _ r 0 fun i hi => by
        rw [Nat.zero_add]
        exact hpres i (by rw [← hwf r hr]; exact hi)
    calc rows.map (selectIdxs (colPresent rows) 0)
        = rows.map id := List.map_congr_left this
      _ = rows := List.map_id rows

/-- How the cell at a column must relate to that column's inferred
numeric flag for the read-back to reproduce it. -/
def cellOK (cl : Cell) (b : Bool) : Prop :=
  match cl with
  | Cell.na => True
  | Cell.num _ => b = true
  | Cell.text s => b = false ∧ naStrings.contains s = false

theorem mkCells_map (colNum : Nat → Bool) :
    ∀ (row : List Cell) (j : Nat),
      (∀ i, i < row.length → cellOK (row.getD i Cell.na) (colNum (j + i))) →
      mkCells colNum j (row.map fieldStr) = row := by
  intro row
  induction row with
  | nil => intro j _; rfl
  | cons cl row ih =>
    intro j h
    have h0 : cellOK cl (colNum j) := by
      have := h 0 (by simp)
      simpa using this
    rw [List.map_cons, mkCells]
    congr 1
    · cases cl with
      | na => rw [if_pos (by decide)]
      | num n =>
        have hb : colNum j = true := h0
        rw [if_neg (by
            show ¬ naStrings.contains (fieldStr (Cell.num n)) = true
            show ¬ naStrings.contains (String.mk (intChars n)) = true
            rw [intChars_not_na n]
            simp),
          if_pos hb]
        show Cell.num (parseIntStr (String.mk (intChars n))) = Cell.num n
        rw [(intChars_spec n).1]
      | text s =>
        obtain ⟨hb, hs⟩ := h0
        have hfs : fieldStr (Cell.text s) = s := rfl
        rw [hfs, if_neg (by rw [hs]; simp), if_neg (by rw [hb]; simp)]
    · exact ih (j + 1) fun i hi => by
        have := h (i + 1) (by simpa using Nat.succ_lt_succ hi)
        rw [show j + 1 + i = j + (i + 1) by omega]
        simpa using this

theorem csvRead_of_lines (s : String) (h : List Char) (rs : List (List Char))
    (hsplit : (splitSep '\n' s.data).filter (fun l => !l.isEmpty) = h :: rs) :
    csvRead s =
      (let header := (splitSep ',' h).map String.mk
       let rawRows := rs.map fun l => (splitSep ',' l).map String.mk
       if rawRows.any fun r => header.length < r.length then .error .parseErr
       else
         let padded := rawRows.map fun r =>
           r ++ List.replicate (header.length - r.length) ""
         .ok ⟨header, padded.map (mkCells (colNumeric padded) 0)⟩) := by
  unfold csvRead
  rw [hsplit]

theorem csv_write_read (t : RawTable)
    (hwf : t.Wf)
    (hhne : t.header ≠ [])
    (hhsafe : ∀ c ∈ t.header, nameSafe c)
    (hcell : ∀ row ∈ t.rows, ∀ cl ∈ row, cellSafe cl)
    (hhom : ∀ j, j < t.header.length →
      NumColP (colOf t j) ∨ TextColP (colOf t j))
    (hnarow : ∀ row ∈ t.rows, row ≠ [Cell.na]) :
    csvRead (csvWrite t) = .ok t := by
  have hrne : ∀ row ∈ t.rows, row ≠ [] := by
    intro row hr hnil
    apply hhne
    have hl := hwf row hr
    rw [hnil] at hl
    exact (List.length_eq_zero.mp hl.symm)
  have hwc : ∀ row ∈ t.rows, ∀ cl ∈ row,
      ',' ∉ writeCell cl ∧ '\n' ∉ writeCell cl := by
    intro row hr cl hc
    cases cl with
    | na => simp [writeCell]
    | num n => exact ⟨(intChars_spec n).2.2.2.1, (intChars_spec n).2.2.2.2⟩
    | text s =>
      obtain ⟨_, h1, h2⟩ := hcell row hr _ hc
      exact ⟨h1, h2⟩
  set hline := joinSep ',' (t.header.map String.data) with hhl
  set rlines := t.rows.map (fun r => joinSep ',' (r.map writeCell)) with hrl
  have hnl_hline : '\n' ∉ hline := by
    intro hmem
    rcases mem_joinSep ',' _ '\n' hmem with hc | ⟨xs, hxs, hin⟩
    · exact absurd hc (by decide)
    · obtain ⟨c, hcm, rfl⟩ := List.mem_map.mp hxs
      exact (hhsafe c hcm).2.2 hin
  have hnl_rlines : ∀ l ∈ rlines, '\n' ∉ l := by
    intro l hl hmem
    rw [hrl] at hl
    obtain ⟨row, hrow, rfl⟩ := List.mem_map.mp hl
    rcases mem_joinSep ',' _ '\n' hmem with hc | ⟨xs, hxs, hin⟩
    · exact absurd hc (by decide)
    · obtain ⟨cl, hclm, rfl⟩ := List.mem_map.mp hxs
      exact (hwc row hrow cl hclm).2 hin
  have hne_hline : hline ≠ [] := by
    rw [hhl]
    cases hh : t.header with
    | nil => exact absurd hh hhne
    | cons c cs =>
      cases cs with
      | nil =>
        show joinSep ',' [c.data] ≠ []
        show c.data ≠ []
        exact (hhsafe c (by rw [hh]; simp)).1
      | cons c2 cs2 =>
        rw [List.map_cons, List.map_cons, joinSep_cons _ _ _ (by simp)]
        simp
  have hne_rlines : ∀ l ∈ rlines, l ≠ [] := by
    intro l hl
    rw [hrl] at hl
    obtain ⟨row, hrow, rfl⟩ := List.mem_map.mp hl
    cases hr : row with
    | nil => exact absurd hr (hrne row hrow)
    | cons cl cls =>
      cases cls with
      | nil =>
        rw [List.map_cons, List.map_nil]
        show writeCell cl ≠ []
        cases cl with
        | na => exact absurd hr (hnarow row hrow)
        | num n => exact (intChars_spec n).2.1
        | text s =>
          intro hdata
          have hs0 : s = "" := String.ext hdata
          have hcs := hcell row hrow (Cell.text s) (by rw [hr]; simp)
          rw [hs0] at hcs
          exact absurd hcs.1 (by decide)
      | cons cl2 cls2 =>
        rw [List.map_cons, List.map_cons, joinSep_cons _ _ _ (by simp)]
        simp
  have hdata : (csvWrite t).data = joinSep '\n' ((hline :: rlines) ++ [[]]) := by
    show ((hline :: rlines).flatMap fun l => l ++ ['\n']) = _
    exact flatMap_lines _
  have hsplit : splitSep '\n' ((csvWrite t).data) = (hline :: rlines) ++ [[]] := by
    rw [hdata]
    refine splitSep_joinSep '\n' _ (by simp) ?_
    intro xs hxs
    rcases List.mem_append.mp hxs with hxs | hxs
    · rcases List.mem_cons.mp hxs with rfl | hxs
      · exact hnl_hline
      · exact hnl_rlines xs hxs
    · have : xs = [] := by simpa using hxs
      rw [this]
      simp
  have hfilter : (splitSep '\n' (csvWrite t).data).filter (fun l => !l.isEmpty)
      = hline :: rlines := by
    rw [hsplit, List.filter_append]
    have h1 : (hline :: rlines).filter (fun l => !l.isEmpty)
        = hline :: rlines := by
      rw [List.filter_eq_self]
      intro a ha
      rcases List.mem_cons.mp ha with rfl | ha
      · simpa using hne_hline
      · simpa using hne_rlines a ha
    have h2 : ([[]] : List (List Char)).filter (fun l => !l.isEmpty) = [] := rfl
    rw [h1, h2, List.append_nil]
  have hheader : (splitSep ',' hline).map String.mk = t.header := by
    rw [hhl]
    rw [splitSep_joinSep ',' _ (by simpa using hhne) ?_]
    · rw [List.map_map]
      have hid : (String.mk ∘ String.data) = id := funext fun s => rfl
      rw [hid, List.map_id]
    · intro xs hxs
      obtain ⟨c, hcm, rfl⟩ := List.mem_map.mp hxs
      exact (hhsafe c hcm).2.1
  have hrowsplit : ∀ row ∈ t.rows,
      (splitSep ',' (joinSep ',' (row.map writeCell))).map String.mk
        = row.map fieldStr := by
    intro row hrow
    rw [splitSep_joinSep ',' _ (by simpa using hrne row hrow) ?_]
    · rw [List.map_map]
      rfl
    · intro xs hxs
      obtain ⟨cl, hclm, rfl⟩ := List.mem_map.mp hxs
      exact (hwc row hrow cl hclm).1
  rw [csvRead_of_lines (csvWrite t) hline rlines hfilter]
  dsimp only
  rw [hheader]
  have hraw : rlines.map (fun l => (splitSep ',' l).map String.mk)
      = t.rows.map fun row => row.map fieldStr := by
    rw [hrl, List.map_map]
    apply List.map_congr_left
    intro row hrow
    exact hrowsplit row hrow
  rw [hraw]
  have hany : ((t.rows.map fun row => row.map fieldStr).any
      fun r => decide (t.header.length < r.length)) = false := by
    rw [List.any_eq_false]
    intro r hr
    obtain ⟨row, hrow, rfl⟩ := List.mem_map.mp hr
    simp only [List.length_map, decide_eq_true_eq]
    rw [hwf row hrow]
    omega
  rw [if_neg (by rw [hany]; simp)]
  have hpad : ((t.rows.map fun row => row.map fieldStr).map
        fun r => r ++ List.replicate (t.header.length - r.length) "")
      = t.rows.map fun row => row.map fieldStr := by
    conv_rhs => rw [← List.map_id (t.rows.map fun row => row.map fieldStr)]
    apply List.map_congr_left
    intro r hr
    obtain ⟨row, hrow, rfl⟩ := List.mem_map.mp hr
    simp only [List.length_map, hwf row hrow, id]
    rw [Nat.sub_self]
    simp
  rw [hpad]
  have hflag : ∀ j, j < t.header.length →
      (NumColP (colOf t j) →
        colNumeric (t.rows.map fun row => row.map fieldStr) j = true)
      ∧ (TextColP (colOf t j) →
        colNumeric (t.rows.map fun row => row.map fieldStr) j = false) := by
    intro j hjlt
    constructor
    · intro hnum
      rw [colNumeric, List.all_eq_true]
      intro r' hr'
      obtain ⟨row', hrow', rfl⟩ := List.mem_map.mp hr'
      dsimp only
      rw [getD_map_lt fieldStr row' j (by rw [hwf row' hrow']; exact hjlt)
        Cell.na ""]
      have hcl := hnum (row'.getD j Cell.na)
        (List.mem_map_of_mem (fun r => r.getD j Cell.na) hrow')
      rcases hcl with hna | hn
      · rw [hna]
        decide
      · cases hv : row'.getD j Cell.na with
        | na => decide
        | num n =>
          have := (intChars_spec n).2.2.1
          show (naStrings.contains (fieldStr (Cell.num n))
              || isIntStr (fieldStr (Cell.num n))) = true
          show (naStrings.contains (String.mk (intChars n))
              || isIntStr (String.mk (intChars n))) = true
          rw [this]
          simp
        | text s =>
          rw [hv] at hn
          exact absurd hn (by simp [isNumCell])
    · intro htext
      obtain ⟨htall, cl0, hcl0m, htnn⟩ := htext
      cases cl0 with
      | na => exact absurd htnn (by simp [textNonNum])
      | num n => exact absurd htnn (by simp [textNonNum])
      | text s0 =>
      obtain ⟨row0, hrow0, hgd⟩ := List.mem_map.mp hcl0m
      rw [colNumeric, List.all_eq_false]
      refine ⟨row0.map fieldStr,
        List.mem_map_of_mem (fun row => row.map fieldStr) hrow0, ?_⟩
      dsimp only
      rw [getD_map_lt fieldStr row0 j (by rw [hwf row0 hrow0]; exact hjlt)
        Cell.na ""]
      rw [hgd]
      have hmem0 : Cell.text s0 ∈ row0 := by
        rw [← hgd]
        exact getD_mem row0 j (by rw [hwf row0 hrow0]; exact hjlt) Cell.na
      have hsafe0 := hcell row0 hrow0 _ hmem0
      have hint0 : isIntStr s0 = false := by
        have : (!isIntStr s0) = true := htnn
        simpa using this
      show ¬ (naStrings.contains (fieldStr (Cell.text s0))
          || isIntStr (fieldStr (Cell.text s0))) = true
      show ¬ (naStrings.contains s0 || isIntStr s0) = true
      rw [hsafe0.1, hint0]
      simp
  have hfinal : ((t.rows.map fun row => row.map fieldStr).map
        (mkCells (colNumeric (t.rows.map fun row => row.map fieldStr)) 0))
      = t.rows := by
    rw [List.map_map]
    conv_rhs => rw [← List.map_id t.rows]
    apply List.map_congr_left
    intro row hrow
    show mkCells (colNumeric (t.rows.map fun row => row.map fieldStr)) 0
        (row.map fieldStr) = row
    apply mkCells_map
    intro i hi
    rw [Nat.zero_add]
    have hjlt : i < t.header.length := by rw [← hwf row hrow]; exact hi
    have hcl_mem : row.getD i Cell.na ∈ colOf t i :=
      List.mem_map_of_mem (fun r => r.getD i Cell.na) hrow
    rcases hhom i hjlt with hnum | htext
    · have hcnum := (hflag i hjlt).1 hnum
      rcases hnum _ hcl_mem with hna | hn
      · rw [hna]
        trivial
      · cases hv : row.getD i Cell.na with
        | na => trivial
        | num n => exact hcnum
        | text s =>
          rw [hv] at hn
          exact absurd hn (by simp [isNumCell])
    · have hcfalse := (hflag i hjlt).2 htext
      rcases htext.1 _ hcl_mem with hna | htx
      · rw [hna]
        trivial
      · cases hv : row.getD i Cell.na with
        | na => trivial
        | num n =>
          rw [hv] at htx
          exact absurd htx (by simp [isTextCell])
        | text s =>
          refine ⟨hcfalse, ?_⟩
          have hmemr : Cell.text s ∈ row := by
            rw [← hv]
            exact getD_mem row i hi Cell.na
          exact (hcell row hrow _ hmemr).1
  rw [hfinal]

/-- C8 (amended): exporting the combined table to CSV (the Master
Document download) and re-loading that text with the loader yields the
same cells, for combined tables that are serialization-clean: column
names nonempty without comma or newline, text cells that are not NA
sentinels and contain no comma or newline, every column homogeneous
(all numeric, or all text with some non-integer-literal witness) and
containing a non-missing cell, and no row entirely missing. (A fully
missing row of a single-column table serializes to a blank line that
the reader skips — see the counterexample.) -/
theorem c8_export_reload (re : ReadExcel) (m : KTable)
    (hwf : (fromKeyed m).Wf)
    (hhsafe : ∀ c ∈ (fromKeyed m).header, nameSafe c)
    (hcell : ∀ row ∈ (fromKeyed m).rows, ∀ cl ∈ row, cellSafe cl)
    (hhom : ∀ j, j < (fromKeyed m).header.length →
      NumColP (colOf (fromKeyed m) j) ∨ TextColP (colOf (fromKeyed m) j))
    (hnarow : ∀ row ∈ (fromKeyed m).rows, row ≠ [Cell.na])
    (hpres : ∀ j, j < (fromKeyed m).header.length →
      colPresent (fromKeyed m).rows j = true) :
    csvRead (exportCsv m) = .ok (fromKeyed m) ∧
    load_file re ⟨"merged_data.csv", exportCsv m⟩ = .ok (fromKeyed m) := by
  have hhne : (fromKeyed m).header ≠ [] := by simp [fromKeyed]
  have h1 : csvRead (exportCsv m) = .ok (fromKeyed m) :=
    csv_write_read (fromKeyed m) hwf hhne hhsafe hcell hhom hnarow
  refine ⟨h1, ?_⟩
  rw [load_file]
  dsimp only
  rw [if_pos (by decide : splitextExt (lowerStr "merged_data.csv") = ".csv")]
  rw [h1]
  show Except.ok (dropEmptyCols (fromKeyed m)) = Except.ok (fromKeyed m)
  rw [dropEmptyCols_id _ hwf hpres]

theorem c8_export_reload_witness :
    ((fromKeyed ⟨["X__s1.csv", "Y__s2.csv"],
       [⟨Cell.num 1, [Cell.text "a", Cell.na]⟩,
        ⟨Cell.num 2, [Cell.text "b", Cell.text "c"]⟩,
        ⟨Cell.num 3, [Cell.na, Cell.text "d"]⟩]⟩).Wf ∧
     (∀ row ∈ (fromKeyed ⟨["X__s1.csv", "Y__s2.csv"],
        [⟨Cell.num 1, [Cell.text "a", Cell.na]⟩,
         ⟨Cell.num 2, [Cell.text "b", Cell.text "c"]⟩,
         ⟨Cell.num 3, [Cell.na, Cell.text "d"]⟩]⟩).rows,
       ∀ cl ∈ row, cellSafe cl)) ∧
    csvRead (exportCsv ⟨["X__s1.csv", "Y__s2.csv"],
       [⟨Cell.num 1, [Cell.text "a", Cell.na]⟩,
        ⟨Cell.num 2, [Cell.text "b", Cell.text "c"]⟩,
        ⟨Cell.num 3, [Cell.na, Cell.text "d"]⟩]⟩)
      = .ok (fromKeyed ⟨["X__s1.csv", "Y__s2.csv"],
       [⟨Cell.num 1, [Cell.text "a", Cell.na]⟩,
        ⟨Cell.num 2, [Cell.text "b", Cell.text "c"]⟩,
        ⟨Cell.num 3, [Cell.na, Cell.text "d"]⟩]⟩) ∧
    load_file noExcel ⟨"merged_data.csv",
        exportCsv ⟨["X__s1.csv", "Y__s2.csv"],
         [⟨Cell.num 1, [Cell.text "a", Cell.na]⟩,
          ⟨Cell.num 2, [Cell.text "b", Cell.text "c"]⟩,
          ⟨Cell.num 3, [Cell.na, Cell.text "d"]⟩]⟩⟩
      = .ok (fromKeyed ⟨["X__s1.csv", "Y__s2.csv"],
       [⟨Cell.num 1, [Cell.text "a", Cell.na]⟩,
        ⟨Cell.num 2, [Cell.text "b", Cell.text "c"]⟩,
        ⟨Cell.num 3, [Cell.na, Cell.text "d"]⟩]⟩) := by
  have h := c8_export_reload noExcel
    ⟨["X__s1.csv", "Y__s2.csv"],
     [⟨Cell.num 1, [Cell.text "a", Cell.na]⟩,
      ⟨Cell.num 2, [Cell.text "b", Cell.text "c"]⟩,
      ⟨Cell.num 3, [Cell.na, Cell.text "d"]⟩]⟩
    (by decide) (by decide) (by decide) (by decide) (by decide) (by decide)
  exact ⟨⟨by decide, by decide⟩, h.1, h.2⟩

/-- C8 counterexample: the master table produced from the single valid
upload `ID / NA / 1` (one `ID` column, one missing value) exports to
`"ID\n1\n\n"`; re-loading that text skips the blank line, so the reloaded
table has 1 row where the combined table had 2 — the cell values are not
preserved for every successfully combined table. -/
theorem c8_counterexample :
    process noExcel [⟨"a.csv", "ID\nNA\n1\n"⟩]
        = .ok (⟨[], [⟨Cell.num 1, []⟩, ⟨Cell.na, []⟩]⟩, [("a.csv", [])],
               [("a.csv", "#FFCFCF")]) ∧
    exportCsv ⟨[], [⟨Cell.num 1, []⟩, ⟨Cell.na, []⟩]⟩ = "ID\n1\n\n" ∧
    load_file noExcel ⟨"merged_data.csv", "ID\n1\n\n"⟩
        = .ok ⟨["ID"], [[Cell.num 1]]⟩ ∧
    (⟨["ID"], [[Cell.num 1]]⟩ : RawTable).rows.length = 1 ∧
    (fromKeyed ⟨[], [⟨Cell.num 1, []⟩, ⟨Cell.na, []⟩]⟩).rows.length = 2 :=
  ⟨by decide, by decide, by decide, by decide, by decide⟩
